import Mathlib

/-!
The editor core of hyprdisplay, `cmd/hyprdisplay/main.go`

A shallow embedding of the monitor layout model, the key-driven `Update`
function, the command generator, the scale computation and the rasterizer,
followed by the properties proved of them.

Conventions of the embedding

* Go `int` is taken to be 64 bits wide (the platforms Hyprland runs on) and is
  embedded as `Int`; every arithmetic operation of the source on a monitor
  coordinate or a grid cell goes through `wrapInt`, the two's complement
  wrap-around of Go.
* Go `float64` is embedded as `F64`, IEEE 754 binary64 with rounding to
  nearest, ties to even; the conversion `int(f)` truncates toward zero where
  the value fits an `int` and is a parameter `impl` of the embedding where Go
  leaves it to the implementation.
* A Go slice index expression `s[i]` panics when `i` is out of range; the
  functions that index return `Option`, with `none` standing for the panic.
* The calls of `make` that build the grid fail on a grid the machine cannot
  hold; whether a grid of a given width and height is granted is a parameter
  `alloc` of the embedding, and `none` stands for the failure.
* `Update` has a value receiver, and the frame loop replaces the model by the
  returned one, so the slice it mutates in place is embedded as the list of the
  returned model.
* The command `applyConfiguration` returns is a closure over that slice: it
  builds the string it executes when it runs, from what the slice holds then
  (`executedAt`), while the string printed is built when `Update` returns
  (`printedAt`).
-/

namespace HyprDisplay

/-! ## Machine integers -/

/-- Width of the Go type `int`. -/
def intBits : Nat := 64

/-- Smallest value of the Go type `int`. -/
def minInt : Int := -(2 ^ (intBits - 1))

/-- Largest value of the Go type `int`. -/
def maxInt : Int := 2 ^ (intBits - 1) - 1

/-- Result of a Go `int` operation whose mathematical value is `v`:
the representative of `v` modulo `2 ^ intBits` in `[minInt, maxInt]`. -/
def wrapInt (v : Int) : Int :=
  (v + 2 ^ (intBits - 1)) % 2 ^ intBits - 2 ^ (intBits - 1)

/-- Values that a Go `int` can hold. -/
def isInt (v : Int) : Prop := minInt ≤ v ∧ v ≤ maxInt

instance (v : Int) : Decidable (isInt v) := by
  unfold isInt; infer_instance

/-! ## Data model (main.go, lines 16-57) -/

/-- Monitor represents a display. -/
structure Monitor where
  Name : String
  X : Int
  Y : Int
  Width : Int
  Height : Int
  Selected : Bool
deriving DecidableEq, Repr

/-- HyprMonitor represents the JSON structure returned by hyprctl. -/
structure HyprMonitor where
  Name : String
  Description : String
  Width : Int
  Height : Int
  X : Int
  Y : Int
deriving DecidableEq, Repr

/-- A `key.Binding`, reduced to the keys given to `key.WithKeys`
(no binding of the program is ever disabled). -/
abbrev Binding := List String

/-- The key bindings of the program. -/
structure keyMap where
  Up : Binding
  Down : Binding
  Left : Binding
  Right : Binding
  Select : Binding
  Apply : Binding
  Copy : Binding
  Quit : Binding
deriving DecidableEq, Repr

/-- Model represents the application state; `helpWidth` is `help.Width`. -/
structure Model where
  monitors : List Monitor
  activeIndex : Int
  helpWidth : Int
  keys : keyMap
  quitting : Bool
  windowWidth : Int
  windowHeight : Int
deriving DecidableEq, Repr

/-- The messages `Update` distinguishes: a key press (identified by the string
`key.Matches` compares), a window resize, and anything else. -/
inductive Msg where
  | KeyMsg (s : String)
  | WindowSizeMsg (Width : Int) (Height : Int)
  | other
deriving DecidableEq, Repr

/-- The effects a returned `tea.Cmd` stands for. `applyConfiguration` is the
closure returned by `applyConfiguration(m.monitors)`: it holds the slice of
the model, whose elements every later `Update` assigns in place, and reads it
only when it runs (lines 404-414), so it carries no text. -/
inductive Effect where
  | Quit
  | Printf (text : String)
  | applyConfiguration
  | copyToClipboard (text : String)
deriving DecidableEq, Repr

/-- A `tea.Cmd`: `nil` is the empty list, `tea.Batch` lists its members. -/
abbrev Cmd := List Effect

/-! ## Startup (main.go, lines 70-157) -/

/-- What `exec.Command("hyprctl", "monitors", "-j").Output()` followed by
`json.Unmarshal` can amount to. -/
inductive QueryOutcome where
  | invocationError
  | unparsable
  | parsed (hyprMonitors : List HyprMonitor)
deriving DecidableEq, Repr

/-- Default monitors in case of error (lines 120-124). -/
def defaultMonitors : List Monitor :=
  [ { Name := "eDP-1", X := 0, Y := 0, Width := 1920, Height := 1080, Selected := false },
    { Name := "DP-2", X := 1920, Y := 0, Width := 1920, Height := 1080, Selected := false },
    { Name := "DP-4", X := 3840, Y := 0, Width := 2560, Height := 1440, Selected := false } ]

/-- The conversion loop of lines 140-149. -/
def convertMonitors (hyprMonitors : List HyprMonitor) : List Monitor :=
  hyprMonitors.foldl
    (fun monitors hm =>
      monitors ++ [{ Name := hm.Name, X := hm.X, Y := hm.Y,
                     Width := hm.Width, Height := hm.Height, Selected := false }])
    []

/-- Embedding of `getMonitors` as a function of the outcome of the query. -/
def getMonitors (q : QueryOutcome) : List Monitor :=
  match q with
  | .invocationError => defaultMonitors
  | .unparsable => defaultMonitors
  | .parsed hyprMonitors =>
    let monitors := convertMonitors hyprMonitors
    if monitors.length = 0 then defaultMonitors else monitors

/-- The bindings built in `initialModel` (lines 71-104). -/
def defaultKeys : keyMap :=
  { Up := ["up", "k"],
    Down := ["down", "j"],
    Left := ["left", "h"],
    Right := ["right", "l"],
    Select := ["enter", "space"],
    Apply := ["a"],
    Copy := ["c"],
    Quit := ["q", "ctrl+c"] }

/-- Embedding of `initialModel` (lines 106-111). -/
def initialModel (q : QueryOutcome) : Model :=
  { monitors := getMonitors q,
    activeIndex := 0,
    helpWidth := 0,
    keys := defaultKeys,
    quitting := false,
    windowWidth := 0,
    windowHeight := 0 }

/-! ## Command generator (main.go, lines 403-438) -/

/-- The subcommand
`fmt.Sprintf("hyprctl keyword monitor '%s,highres,%d,%d,1'", mon.Name, mon.X, mon.Y)`. -/
def monitorCommand (mon : Monitor) : String :=
  "hyprctl keyword monitor '" ++ mon.Name ++ ",highres," ++ toString mon.X ++ ","
    ++ toString mon.Y ++ ",1'"

/-- Embedding of `generateHyprlandCommand` (lines 428-438): the loop appends
one subcommand per monitor, `strings.Join` glues them. -/
def generateHyprlandCommand (monitors : List Monitor) : String :=
  let commands := monitors.foldl (fun commands mon => commands ++ [monitorCommand mon]) []
  String.intercalate " && " commands

/-- The string `fullCmd` that the closure of `applyConfiguration` builds
(lines 405-414) and passes to `bash -c`, when it runs while the slice holds
`monitors`. -/
def applyConfigurationFullCmd (monitors : List Monitor) : String :=
  let commands := monitors.foldl
    (fun commands mon =>
      commands ++ ["hyprctl keyword monitor '" ++ mon.Name ++ ",highres," ++ toString mon.X
        ++ "," ++ toString mon.Y ++ ",1'"])
    []
  String.intercalate " && " commands

/-- Embedding of `applyConfiguration` : the closure over the slice passed;
what the slice holds at the call does not enter it. -/
def applyConfiguration (_ : List Monitor) : Effect :=
  Effect.applyConfiguration

/-- Embedding of `copyToClipboard` : the effect of copying `text`. -/
def copyToClipboard (text : String) : Effect :=
  Effect.copyToClipboard text

/-! ## Update (main.go, lines 163-225) -/

/-- Embedding of `key.Matches` for an enabled binding. -/
def Matches (s : String) (b : Binding) : Bool := b.contains s

/-- The cases of the `switch` of lines 166-216. -/
inductive KeyCase where
  | Quit | Up | Down | Left | Right | Select | Apply | Copy | noMatch
deriving DecidableEq, Repr

/-- The case of the `switch` that runs for a key: the first whose
`key.Matches` holds, in source order. -/
def keyCase (keys : keyMap) (s : String) : KeyCase :=
  if Matches s keys.Quit then .Quit
  else if Matches s keys.Up then .Up
  else if Matches s keys.Down then .Down
  else if Matches s keys.Left then .Left
  else if Matches s keys.Right then .Right
  else if Matches s keys.Select then .Select
  else if Matches s keys.Apply then .Apply
  else if Matches s keys.Copy then .Copy
  else .noMatch

/-- The index expression `monitors[i]`; `none` is the run-time panic. -/
def indexMonitor (monitors : List Monitor) (i : Int) : Option Monitor :=
  if 0 ≤ i ∧ i < monitors.length then monitors.get? i.toNat else none

/-- The assignment `m.monitors[m.activeIndex] = mon` on a valid index. -/
def setActive (m : Model) (mon : Monitor) : Model :=
  { m with monitors := m.monitors.set m.activeIndex.toNat mon }

/-- The body of the key `switch` of `Update`, by case. The cursor moves only
under the guards `activeIndex > 0` and `activeIndex < len - 1`, under which
`activeIndex--` and `activeIndex++` cannot overflow; the coordinate updates
are unguarded and wrap. -/
def updateKey (m : Model) (c : KeyCase) : Option (Model × Cmd) :=
  match c with
  | .Quit => some ({ m with quitting := true }, [Effect.Quit])
  | .Up =>
    match indexMonitor m.monitors m.activeIndex with
    | none => none
    | some mon =>
      if mon.Selected then some (setActive m { mon with Y := wrapInt (mon.Y - 10) }, [])
      else if m.activeIndex > 0 then some ({ m with activeIndex := m.activeIndex - 1 }, [])
      else some (m, [])
  | .Down =>
    match indexMonitor m.monitors m.activeIndex with
    | none => none
    | some mon =>
      if mon.Selected then some (setActive m { mon with Y := wrapInt (mon.Y + 10) }, [])
      else if m.activeIndex < (m.monitors.length : Int) - 1 then
        some ({ m with activeIndex := m.activeIndex + 1 }, [])
      else some (m, [])
  | .Left =>
    match indexMonitor m.monitors m.activeIndex with
    | none => none
    | some mon =>
      if mon.Selected then some (setActive m { mon with X := wrapInt (mon.X - 10) }, [])
      else some (m, [])
  | .Right =>
    match indexMonitor m.monitors m.activeIndex with
    | none => none
    | some mon =>
      if mon.Selected then some (setActive m { mon with X := wrapInt (mon.X + 10) }, [])
      else some (m, [])
  | .Select =>
    match indexMonitor m.monitors m.activeIndex with
    | none => none
    | some mon => some (setActive m { mon with Selected := !mon.Selected }, [])
  | .Apply =>
    let cmdString := generateHyprlandCommand m.monitors
    some (m, [Effect.Printf ("Applying configuration:\n" ++ cmdString),
              applyConfiguration m.monitors])
  | .Copy =>
    let cmdString := generateHyprlandCommand m.monitors
    some (m, [copyToClipboard cmdString])
  | .noMatch => some (m, [])

/-- Embedding of `Model.Update`. -/
def Update (m : Model) (msg : Msg) : Option (Model × Cmd) :=
  match msg with
  | .KeyMsg s => updateKey m (keyCase m.keys s)
  | .WindowSizeMsg Width Height =>
    some ({ m with windowWidth := Width, windowHeight := Height, helpWidth := Width }, [])
  | .other => some (m, [])

/-- Feeding a finite sequence of messages to `Update`, each on the model
returned for the previous one; `none` as soon as one call panics. -/
def run (m : Model) : List Msg → Option Model
  | [] => some m
  | msg :: rest =>
    match Update m msg with
    | none => none
    | some (m', _) => run m' rest

/-- The cursor is a valid index of the layout. -/
def validIndex (m : Model) : Prop :=
  0 ≤ m.activeIndex ∧ m.activeIndex < m.monitors.length

instance (m : Model) : Decidable (validIndex m) := by
  unfold validIndex; infer_instance

/-- Every monitor whose `Selected` flag is set is the one under the cursor. -/
def coupled (m : Model) : Prop :=
  ∀ (j : Nat) (mon : Monitor), m.monitors.get? j = some mon → mon.Selected = true →
    (j : Int) = m.activeIndex

/-- The monitor `mon` moved by `(dx, dy)` in unbounded integers, with every
other field kept: the translation the specification speaks of. -/
def translated (mon : Monitor) (dx dy : Int) : Monitor :=
  { mon with X := mon.X + dx, Y := mon.Y + dy }

/-- A model whose only monitor is selected and sits at the smallest ordinate
a Go `int` holds. -/
def lowestModel : Model :=
  { monitors := [{ Name := "eDP-1", X := 0, Y := -9223372036854775808,
                   Width := 1920, Height := 1080, Selected := true }],
    activeIndex := 0,
    helpWidth := 0,
    keys := defaultKeys,
    quitting := false,
    windowWidth := 0,
    windowHeight := 0 }

/-- The default layout with the cursor on `DP-2` and `DP-2` selected: the
state after Down and Select. -/
def movingModel : Model :=
  { monitors :=
      [ { Name := "eDP-1", X := 0, Y := 0, Width := 1920, Height := 1080, Selected := false },
        { Name := "DP-2", X := 1920, Y := 0, Width := 1920, Height := 1080, Selected := true },
        { Name := "DP-4", X := 3840, Y := 0, Width := 2560, Height := 1440, Selected := false } ],
    activeIndex := 1,
    helpWidth := 0,
    keys := defaultKeys,
    quitting := false,
    windowWidth := 0,
    windowHeight := 0 }

/-- The selected monitor of `movingModel`. -/
def movingMonitor : Monitor :=
  { Name := "DP-2", X := 1920, Y := 0, Width := 1920, Height := 1080, Selected := true }

/-- The first monitor of the default layout. -/
def firstMonitor : Monitor :=
  { Name := "eDP-1", X := 0, Y := 0, Width := 1920, Height := 1080, Selected := false }

/-- The keys of scenario B: Down, Select, Right, Right, Right. -/
def scenarioB : List Msg :=
  [.KeyMsg "down", .KeyMsg "enter", .KeyMsg "right", .KeyMsg "right", .KeyMsg "right"]

/-- A model with an empty layout and the cursor at 0. -/
def emptyModel : Model :=
  { monitors := [],
    activeIndex := 0,
    helpWidth := 0,
    keys := defaultKeys,
    quitting := false,
    windowWidth := 0,
    windowHeight := 0 }

/-- The cases of the `switch` that index `m.monitors[m.activeIndex]`. -/
def indexesLayout (c : KeyCase) : Bool :=
  match c with
  | .Up | .Down | .Left | .Right | .Select => true
  | _ => false

/-- The four direction cases. -/
def isDirection (c : KeyCase) : Bool :=
  match c with
  | .Up | .Down | .Left | .Right => true
  | _ => false

/-- The move `(dx, dy)` the specification gives each direction key. -/
def delta (c : KeyCase) : Int × Int :=
  match c with
  | .Up => (0, -10)
  | .Down => (0, 10)
  | .Left => (-10, 0)
  | .Right => (10, 0)
  | _ => (0, 0)

/-- Sum of the horizontal moves of a sequence of keys. -/
def sumDX (keys : keyMap) (ss : List String) : Int :=
  (ss.map (fun s => (delta (keyCase keys s)).1)).sum

/-- Sum of the vertical moves of a sequence of keys. -/
def sumDY (keys : keyMap) (ss : List String) : Int :=
  (ss.map (fun s => (delta (keyCase keys s)).2)).sum

/-- The monitor a direction key leaves in place of the selected monitor
`mon` (lines 173, 180, 187, 192). -/
def moved (c : KeyCase) (mon : Monitor) : Monitor :=
  match c with
  | .Up => { mon with Y := wrapInt (mon.Y - 10) }
  | .Down => { mon with Y := wrapInt (mon.Y + 10) }
  | .Left => { mon with X := wrapInt (mon.X - 10) }
  | .Right => { mon with X := wrapInt (mon.X + 10) }
  | _ => mon

/-- The monitor left by a sequence of direction keys. -/
def movedAll (keys : keyMap) (ss : List String) (mon : Monitor) : Monitor :=
  ss.foldl (fun acc s => moved (keyCase keys s) acc) mon

/-- A model whose only monitor is selected and sits at the largest abscissa
a Go `int` holds. -/
def rightmostModel : Model :=
  { monitors := [{ Name := "eDP-1", X := 9223372036854775807, Y := 0,
                   Width := 1920, Height := 1080, Selected := true }],
    activeIndex := 0,
    helpWidth := 0,
    keys := defaultKeys,
    quitting := false,
    windowWidth := 0,
    windowHeight := 0 }

/-- The monitor under the cursor after `Update`, when the call returns and the
cursor is valid. -/
def activeAfter (m : Model) (msg : Msg) : Option Monitor :=
  match Update m msg with
  | none => none
  | some (m', _) => indexMonitor m'.monitors m'.activeIndex

/-! ## Floating point (the `float64` operations of `calculateScale` and `renderMonitors`)

IEEE 754 binary64 with rounding to nearest, ties to even: the arithmetic Go
prescribes for `float64`. -/

/-- A `float64`: not-a-number, an infinity, or the finite value
`(-1)^neg * m * 2^e`. -/
inductive F64 where
  | nan
  | inf (neg : Bool)
  | fin (neg : Bool) (m : Nat) (e : Int)
deriving DecidableEq, Repr

namespace F64

/-- Number of binary digits of `n`, by halving at most `fuel` times. -/
def bitLenAux : Nat → Nat → Nat
  | 0, _ => 0
  | fuel + 1, n => if n = 0 then 0 else bitLenAux fuel (n / 2) + 1

/-- Number of binary digits of `n`. -/
def bitLen (n : Nat) : Nat := bitLenAux n n

/-- The finite value `m * 2^e` when it is below `2^1024`, that is when `m` has
at most `1024 - e` binary digits, and the infinity otherwise. -/
def pack (neg : Bool) (m : Nat) (e : Int) : F64 :=
  if 1024 < (bitLen m : Int) + e then inf neg else fin neg m e

/-- Rounding to nearest, ties to even, of the exact value `m * 2^e` (plus a
nonzero amount below `2^e` when `sticky`) to 53 significant bits with the
exponent of the last bit at least `-1074`. -/
def round (neg : Bool) (m : Nat) (e : Int) (sticky : Bool) : F64 :=
  let shift : Int := max ((bitLen m : Int) - 53) (-1074 - e)
  if shift ≤ 0 then pack neg m e
  else
    let s := shift.toNat
    let q := m / 2 ^ s
    let rem := m % 2 ^ s
    let half := 2 ^ (s - 1)
    let up := decide (half < rem) || (decide (rem = half) && (sticky || decide (q % 2 = 1)))
    pack neg (if up then q + 1 else q) (e + s)

/-- Conversion `float64(v)` of an `int`. -/
def ofInt (v : Int) : F64 := round (decide (v < 0)) v.natAbs 0 false

/-- Product of two `float64`. -/
def mul (a b : F64) : F64 :=
  match a, b with
  | nan, _ => nan
  | _, nan => nan
  | inf n1, inf n2 => inf (xor n1 n2)
  | inf n1, fin n2 m2 _ => if m2 = 0 then nan else inf (xor n1 n2)
  | fin n1 m1 _, inf n2 => if m1 = 0 then nan else inf (xor n1 n2)
  | fin n1 m1 e1, fin n2 m2 e2 => round (xor n1 n2) (m1 * m2) (e1 + e2) false

/-- Quotient of two `float64`. -/
def div (a b : F64) : F64 :=
  match a, b with
  | nan, _ => nan
  | _, nan => nan
  | inf _, inf _ => nan
  | inf n1, fin n2 _ _ => inf (xor n1 n2)
  | fin n1 _ _, inf n2 => fin (xor n1 n2) 0 0
  | fin n1 m1 e1, fin n2 m2 e2 =>
    if m2 = 0 then (if m1 = 0 then nan else inf (xor n1 n2))
    else
      let k := 64 + bitLen m2
      let num := m1 * 2 ^ k
      round (xor n1 n2) (num / m2) (e1 - e2 - k) (decide (num % m2 ≠ 0))

/-- The integer `(-1)^neg * m * 2^(e - e0)` for `e0 ≤ e`. -/
def scaled (neg : Bool) (m : Nat) (e e0 : Int) : Int :=
  let v : Int := (m : Int) * 2 ^ (e - e0).toNat
  if neg then -v else v

/-- Comparison `a < b` of two `float64`. -/
def lt (a b : F64) : Bool :=
  match a, b with
  | nan, _ => false
  | _, nan => false
  | inf n1, inf n2 => n1 && !n2
  | inf n1, fin _ _ _ => n1
  | fin _ _ _, inf n2 => !n2
  | fin n1 m1 e1, fin n2 m2 e2 =>
    decide (scaled n1 m1 e1 (min e1 e2) < scaled n2 m2 e2 (min e1 e2))

/-- Comparison `a >= b` of two `float64`. -/
def ge (a b : F64) : Bool :=
  match a, b with
  | nan, _ => false
  | _, nan => false
  | inf n1, inf n2 => !n1 || n2
  | inf n1, fin _ _ _ => !n1
  | fin _ _ _, inf n2 => n2
  | fin n1 m1 e1, fin n2 m2 e2 =>
    decide (scaled n2 m2 e2 (min e1 e2) ≤ scaled n1 m1 e1 (min e1 e2))

/-- The value of a finite `float64` truncated toward zero. -/
def trunc (neg : Bool) (m : Nat) (e : Int) : Int :=
  let t : Int := if 0 ≤ e then (m : Int) * 2 ^ e.toNat else ((m / 2 ^ (-e).toNat : Nat) : Int)
  if neg then -t else t

/-- The conversion `int(f)` where Go defines it: `f` finite and its truncation
toward zero an `int`. -/
def toInt? (f : F64) : Option Int :=
  match f with
  | fin neg m e => if isInt (trunc neg m e) then some (trunc neg m e) else none
  | _ => none

/-- The conversion `int(f)`. Where the value does not fit, Go leaves the result
to the implementation: it is `impl f` (brought into the range of `int`). -/
def toInt (impl : F64 → Int) (f : F64) : Int :=
  match toInt? f with
  | some v => v
  | none => wrapInt (impl f)

/-- The sign of a `float64` (`false` for not-a-number). -/
def isNeg (f : F64) : Bool :=
  match f with
  | nan => false
  | inf neg => neg
  | fin neg _ _ => neg

/-- The constant `0.5`. -/
def half : F64 := fin false 1 (-1)

/-- The constant `0.3`, that is the `float64` nearest to 3/10. -/
def threeTenths : F64 := fin false 5404319552844595 (-54)

/-- The constant `0.1`, that is the `float64` nearest to 1/10. -/
def oneTenth : F64 := fin false 7205759403792794 (-56)

/-- The constant `20`. -/
def twenty : F64 := fin false 20 0

/-- The constant `40`. -/
def forty : F64 := fin false 40 0

/-- What `int(f)` gives on amd64 when the value does not fit: the smallest
`int`. -/
def amd64 (_ : F64) : Int := minInt

end F64

open F64 in
/-- The maxima `maxX`, `maxY` of `calculateScale` (lines 374-382). -/
def scaleExtent (monitors : List Monitor) : Int × Int :=
  monitors.foldl
    (fun (acc : Int × Int) mon =>
      (if wrapInt (mon.X + mon.Width) > acc.1 then wrapInt (mon.X + mon.Width) else acc.1,
       if wrapInt (mon.Y + mon.Height) > acc.2 then wrapInt (mon.Y + mon.Height) else acc.2))
    (0, 0)

open F64 in
/-- Embedding of `calculateScale` (lines 372-401). -/
def calculateScale (monitors : List Monitor) (windowWidth windowHeight : Int) : F64 :=
  let maxX := (scaleExtent monitors).1
  let maxY := (scaleExtent monitors).2
  let scaleX := mul (div (ofInt windowWidth) (ofInt maxX)) half
  let scaleY := mul (div (ofInt windowHeight) (ofInt maxY)) threeTenths
  let scale := if lt scaleY scaleX then scaleY else scaleX
  if lt scale oneTenth then oneTenth else scale

/-! ## Rasterizer (main.go, lines 263-370) -/

/-- The boundaries `minX, minY, maxX, maxY` of the monitor layout. -/
structure Bounds where
  minX : Int
  minY : Int
  maxX : Int
  maxY : Int
deriving DecidableEq, Repr

/-- One turn of the loop of lines 268-281. -/
def boundsStep (b : Bounds) (mon : Monitor) : Bounds :=
  let b := if mon.X < b.minX then { b with minX := mon.X } else b
  let b := if mon.Y < b.minY then { b with minY := mon.Y } else b
  let b := if wrapInt (mon.X + mon.Width) > b.maxX
    then { b with maxX := wrapInt (mon.X + mon.Width) } else b
  let b := if wrapInt (mon.Y + mon.Height) > b.maxY
    then { b with maxY := wrapInt (mon.Y + mon.Height) } else b
  b

/-- The boundaries of the layout (lines 267-281). -/
def layoutBounds (monitors : List Monitor) : Bounds :=
  monitors.foldl boundsStep { minX := 0, minY := 0, maxX := 0, maxY := 0 }

/-- The expression `int(float64(v) * scale / d)` of lines 285-310. -/
def cells (impl : F64 → Int) (scale : F64) (v : Int) (d : F64) : Int :=
  F64.toInt impl (F64.div (F64.mul (F64.ofInt v) scale) d)

/-- The variable `gridWidth` (lines 285, 288-290). -/
def gridWidth (impl : F64 → Int) (monitors : List Monitor) (scale : F64) : Int :=
  let b := layoutBounds monitors
  let w := wrapInt (cells impl scale (wrapInt (b.maxX - b.minX)) F64.twenty + 10)
  if w < 20 then 20 else w

/-- The variable `gridHeight` (lines 286, 291-293). -/
def gridHeight (impl : F64 → Int) (monitors : List Monitor) (scale : F64) : Int :=
  let b := layoutBounds monitors
  let h := wrapInt (cells impl scale (wrapInt (b.maxY - b.minY)) F64.forty + 5)
  if h < 10 then 10 else h

/-- The grid of cells, a list of rows. -/
abbrev Grid := List (List String)

/-- The grid of blanks of lines 296-302, once allocated. -/
def blankGrid (gw gh : Int) : Grid :=
  List.replicate gh.toNat (List.replicate gw.toNat " ")

/-- The empty grid of lines 296-302. The calls of `make` fail (a panic
`makeslice: len out of range`, or the death of the program for want of
memory) on grids the machine cannot hold; `alloc gw gh` says whether the
machine grants a grid `gw` wide and `gh` high, and `none` is the failure. -/
def emptyGrid (alloc : Int → Int → Bool) (gw gh : Int) : Option Grid :=
  if alloc gw gh = true then some (blankGrid gw gh) else none

/-- The grids 64-bit Linux does not refuse at once: `make` panics beyond
`2^48` bytes, a row of the outer slice taking 24 bytes and a cell 16. -/
def linuxAlloc (gw gh : Int) : Bool :=
  decide (gh * 24 ≤ 2 ^ 48 ∧ gw * 16 ≤ 2 ^ 48)

/-- The variables `startX, startY, endX, endY` of one monitor. -/
structure Rect where
  startX : Int
  startY : Int
  endX : Int
  endY : Int
deriving DecidableEq, Repr

/-- The rectangle of a monitor on the grid, clipped (lines 307-318). -/
def monitorRect (impl : F64 → Int) (b : Bounds) (scale : F64) (gw gh : Int)
    (mon : Monitor) : Rect :=
  let startX := cells impl scale (wrapInt (mon.X - b.minX)) F64.twenty
  let startY := cells impl scale (wrapInt (mon.Y - b.minY)) F64.forty
  let endX := wrapInt (startX + cells impl scale mon.Width F64.twenty)
  let endY := wrapInt (startY + cells impl scale mon.Height F64.forty)
  let endX := if endX ≥ gw then wrapInt (gw - 1) else endX
  let endY := if endY ≥ gh then wrapInt (gh - 1) else endY
  { startX := startX, startY := startY, endX := endX, endY := endY }

/-- The character chosen by monitor status (lines 321-327). -/
def monitorChar (idx activeIndex : Int) (mon : Monitor) : String :=
  let char := "░"
  let char := if idx = activeIndex then "▓" else char
  let char := if mon.Selected then "█" else char
  char

/-- An assignment `grid[row][col] = cell`. -/
structure CellWrite where
  row : Int
  col : Int
  cell : String
deriving DecidableEq, Repr

/-- The values of `for v := lo; v < hi; v++`. -/
def intRange (lo hi : Int) : List Int :=
  (List.range (hi - lo).toNat).map (fun (k : Nat) => lo + (k : Int))

/-- The assignments of the fill loops (lines 330-334), in order. -/
def fillWrites (r : Rect) (gw gh : Int) (char : String) : List CellWrite :=
  (intRange r.startY (min r.endY gh)).flatMap
    (fun y => (intRange r.startX (min r.endX gw)).map
      (fun x => { row := y, col := x, cell := char }))

/-- The pairs `i, c` of `for i, c := range name`: every character with the
byte offset at which it starts. -/
def runeOffsets : List Char → Nat → List (Nat × Char)
  | [], _ => []
  | c :: cs, off => (off, c) :: runeOffsets cs (off + c.utf8Size)

/-- The assignments of the name loop (lines 337-346), in order; `len(name)`
is the length in bytes. -/
def nameWrites (r : Rect) (gw gh : Int) (name : String) : List CellWrite :=
  let nameY := Int.tdiv (wrapInt (r.startY + r.endY)) 2
  let nameX := wrapInt (r.startX + 1)
  if nameX < gw ∧ nameY < gh ∧
      wrapInt (r.endX - r.startX) > wrapInt ((name.utf8ByteSize : Int) + 2) then
    (runeOffsets name.toList 0).filterMap
      (fun ic =>
        if wrapInt (nameX + (ic.1 : Int)) < r.endX ∧ wrapInt (nameX + (ic.1 : Int)) < gw then
          some { row := nameY, col := wrapInt (nameX + (ic.1 : Int)),
                 cell := String.singleton ic.2 }
        else none)
  else []

/-- The assignments of one turn of the loop of lines 305-347. -/
def monitorWrites (impl : F64 → Int) (b : Bounds) (scale : F64) (gw gh : Int)
    (activeIndex : Int) (idx : Nat) (mon : Monitor) : List CellWrite :=
  let r := monitorRect impl b scale gw gh mon
  fillWrites r gw gh (monitorChar idx activeIndex mon) ++ nameWrites r gw gh mon.Name

/-- All the assignments of `renderMonitors`, in order. -/
def allWrites (impl : F64 → Int) (monitors : List Monitor) (activeIndex : Int)
    (scale : F64) : List CellWrite :=
  monitors.enum.flatMap
    (fun im => monitorWrites impl (layoutBounds monitors) scale
      (gridWidth impl monitors scale) (gridHeight impl monitors scale) activeIndex im.1 im.2)

/-- The assignment `grid[row][col] = cell`; `none` is the run-time panic of an
index out of range. -/
def setCell (grid : Grid) (w : CellWrite) : Option Grid :=
  if 0 ≤ w.row ∧ w.row < grid.length then
    match grid.get? w.row.toNat with
    | none => none
    | some line =>
      if 0 ≤ w.col ∧ w.col < line.length then
        some (grid.set w.row.toNat (line.set w.col.toNat w.cell))
      else none
  else none

/-- A sequence of assignments, stopping at the first panic. -/
def applyWrites : Grid → List CellWrite → Option Grid
  | grid, [] => some grid
  | grid, w :: ws =>
    match setCell grid w with
    | none => none
    | some grid' => applyWrites grid' ws

/-- The grid after the loop of lines 305-347; `none` is a failure of `make`
or the panic of an index out of range. -/
def renderGrid (impl : F64 → Int) (alloc : Int → Int → Bool) (monitors : List Monitor)
    (activeIndex : Int) (scale : F64) : Option Grid :=
  match emptyGrid alloc (gridWidth impl monitors scale) (gridHeight impl monitors scale) with
  | none => none
  | some grid => applyWrites grid (allWrites impl monitors activeIndex scale)

/-- The value of `strings.Repeat(s, n)`. -/
def Repeat (s : String) (n : Int) : String :=
  String.join (List.replicate n.toNat s)

/-- The lines of the box (lines 351-361), each without its final newline. -/
def boxLines (grid : Grid) (gw : Int) : List String :=
  ["┌" ++ Repeat "─" gw ++ "┐"] ++ grid.map (fun row => "│" ++ String.join row ++ "│") ++
    ["└" ++ Repeat "─" gw ++ "┘"]

/-- The text written for a grid (lines 350-367). -/
def renderText (grid : Grid) (gw : Int) : String :=
  "Display Layout:\n" ++ ("┌" ++ Repeat "─" gw ++ "┐\n") ++
    String.join (grid.map (fun row => "│" ++ String.join row ++ "│\n")) ++
    ("└" ++ Repeat "─" gw ++ "┘\n") ++
    "\nLegend: " ++ "░ = Monitor  " ++ "▓ = Active Monitor  " ++ "█ = Selected for Movement\n"

/-- Embedding of `renderMonitors`; `none` is a run-time failure. -/
def renderMonitors (impl : F64 → Int) (alloc : Int → Int → Bool) (monitors : List Monitor)
    (activeIndex : Int) (scale : F64) : Option String :=
  match renderGrid impl alloc monitors activeIndex scale with
  | none => none
  | some grid => some (renderText grid (gridWidth impl monitors scale))

/-- The conversion of one record of the query (lines 142-148). -/
def convertMonitor (hm : HyprMonitor) : Monitor :=
  { Name := hm.Name, X := hm.X, Y := hm.Y, Width := hm.Width, Height := hm.Height,
    Selected := false }

/-- A layout with one monitor, wholly to the left of the origin. -/
def leftLayout : List Monitor :=
  [{ Name := "DP-1", X := -1920, Y := 0, Width := 1920, Height := 1080, Selected := false }]

/-- The cell count `int(float64(v) * scale / d)` is one Go defines (the value
fits an `int`) and is at most `2^60`. -/
def smallCells (scale : F64) (v : Int) (d : F64) : Bool :=
  match F64.toInt? (F64.div (F64.mul (F64.ofInt v) scale) d) with
  | some c => decide (c ≤ 2 ^ 60)
  | none => false

/-- No operation of the rasterizer on the monitor `mon` leaves the range of
`int`: the two differences to the boundaries do not wrap around, the
conversions of the start cell and of the height are defined and at most
`2^60`, and the name is at most `2^60` bytes long. -/
def rasterInRange (b : Bounds) (scale : F64) (mon : Monitor) : Prop :=
  isInt (mon.X - b.minX) ∧ isInt (mon.Y - b.minY) ∧
  smallCells scale (mon.X - b.minX) F64.twenty = true ∧
  smallCells scale (mon.Y - b.minY) F64.forty = true ∧
  smallCells scale mon.Height F64.forty = true ∧
  (mon.Name.utf8ByteSize : Int) ≤ 2 ^ 60

instance (b : Bounds) (scale : F64) (mon : Monitor) : Decidable (rasterInRange b scale mon) := by
  unfold rasterInRange; infer_instance

/-- The assignment targets a cell of a grid `gw` wide and `gh` high. -/
def validWrite (gw gh : Int) (w : CellWrite) : Prop :=
  (0 ≤ w.row ∧ w.row < gh) ∧ (0 ≤ w.col ∧ w.col < gw)

instance (gw gh : Int) (w : CellWrite) : Decidable (validWrite gw gh w) := by
  unfold validWrite; infer_instance

/-- The content of the cell `grid[y][x]`. -/
def cellAt (grid : Grid) (y x : Int) : Option String :=
  if 0 ≤ y ∧ 0 ≤ x then
    match grid.get? y.toNat with
    | none => none
    | some line => line.get? x.toNat
  else none

/-- The cell `(y, x)` lies in the rectangle the fill loops cover. -/
def inRect (r : Rect) (gw gh : Int) (y x : Int) : Prop :=
  (r.startY ≤ y ∧ y < r.endY ∧ y < gh) ∧ (r.startX ≤ x ∧ x < r.endX ∧ x < gw)

instance (r : Rect) (gw gh y x : Int) : Decidable (inRect r gw gh y x) := by
  unfold inRect; infer_instance

/-- A finite `float64` greater than zero. -/
def F64.finitePos (f : F64) : Bool :=
  match f with
  | F64.fin false m _ => decide (0 < m)
  | _ => false

/-- The grid has `gh` rows of `gw` cells. -/
def gridDims (grid : Grid) (gw gh : Int) : Prop :=
  grid.length = gh.toNat ∧ ∀ row ∈ grid, row.length = gw.toNat

/-- Every cell of the grid holds exactly one character. -/
def unitCells (grid : Grid) : Prop :=
  ∀ row ∈ grid, ∀ c ∈ row, c.length = 1

/-- The rectangle of a monitor in the grid `renderMonitors` builds for the
layout. -/
def layoutRect (impl : F64 → Int) (monitors : List Monitor) (scale : F64) (mon : Monitor) :
    Rect :=
  monitorRect impl (layoutBounds monitors) scale (gridWidth impl monitors scale)
    (gridHeight impl monitors scale) mon

/-- The row `nameY` of the label of a rectangle (line 337). -/
def nameRow (r : Rect) : Int := Int.tdiv (wrapInt (r.startY + r.endY)) 2

/-- The assignments that write a whole name: its characters in row `nameRow`,
each at column `startX + 1` plus the byte offset at which it starts. -/
def labelWrites (r : Rect) (name : String) : List CellWrite :=
  (runeOffsets name.toList 0).map
    (fun ic => { row := nameRow r, col := r.startX + 1 + (ic.1 : Int),
                 cell := String.singleton ic.2 })

/-- A layout whose second monitor sits at the largest abscissa of `int`, one
unit left of which the first monitor starts. -/
def overflowLayout : List Monitor :=
  [ { Name := "L", X := -1, Y := 0, Width := 1920, Height := 1080, Selected := false },
    { Name := "R", X := 9223372036854775807, Y := 0, Width := 1920, Height := 1080,
      Selected := false } ]

/-- The scale `1.0`. -/
def F64.one : F64 := F64.fin false 1 0

/-- A monitor whose rectangle is exactly two cells wider than its name. -/
def tightMonitor : Monitor :=
  { Name := "DP-2", X := 0, Y := 0, Width := 120, Height := 80, Selected := false }

/-- A monitor whose rectangle is three cells wider than its name. -/
def roomyMonitor : Monitor :=
  { Name := "DP-2", X := 0, Y := 0, Width := 140, Height := 80, Selected := false }

/-- The content a sequence of assignments leaves in the cell `(y, x)`, from
the content `init` before them: that of the last assignment to the cell. -/
def lastWriteAt (y x : Int) (init : Option String) (ws : List CellWrite) : Option String :=
  ws.foldl (fun acc w => if w.row = y ∧ w.col = x then some w.cell else acc) init

/-- A layout whose second monitor sits at the largest ordinate of `int`, one
unit above which the first monitor starts. -/
def overflowLayoutY : List Monitor :=
  [ { Name := "T", X := 0, Y := -1, Width := 1920, Height := 1080, Selected := false },
    { Name := "B", X := 0, Y := 9223372036854775807, Width := 1920, Height := 1080,
      Selected := false } ]

/-- The text a command returned by `Update` for `msg` prints. -/
def printedAt (m : Model) (msg : Msg) : Option String :=
  match Update m msg with
  | none => none
  | some (_, cmd) =>
    cmd.findSome? (fun e => match e with
      | Effect.Printf text => some text
      | _ => none)

/-- The string handed to `bash -c` by the command that `Update` returned for
`msg`, when that command runs after `Update` has processed the messages
`between`: the closure builds `fullCmd` from what the slice holds then. -/
def executedAt (m : Model) (msg : Msg) (between : List Msg) : Option String :=
  match Update m msg with
  | none => none
  | some (m1, cmd) =>
    if Effect.applyConfiguration ∈ cmd then
      match run m1 between with
      | none => none
      | some m2 => some (applyConfigurationFullCmd m2.monitors)
    else none

/-- The constant `0.7`, that is the `float64` nearest to 7/10. -/
def F64.sevenTenths : F64 := F64.fin false 6305039478318694 (-53)

/-- The exact value of a finite `float64`, as a numerator and a positive
denominator. -/
def F64.fraction (f : F64) : Option (Int × Int) :=
  match f with
  | F64.fin neg m e =>
    let n : Int := if neg then -(m : Int) else (m : Int)
    if 0 ≤ e then some (n * 2 ^ e.toNat, 1) else some (n, 2 ^ (-e).toNat)
  | _ => none

/-- The formula of the specification for a size of the grid, in exact
arithmetic: `max lo (trunc (span * scale / d) + pad)`. -/
def exactGridSize (span : Int) (scale : F64) (d pad lo : Int) : Option Int :=
  match F64.fraction scale with
  | some (num, den) => some (max lo (Int.tdiv (span * num) (den * d) + pad))
  | none => none

/-- A monitor 2000 units wide at the origin. -/
def wideMonitor : Monitor :=
  { Name := "DP-1", X := 0, Y := 0, Width := 2000, Height := 1080, Selected := false }

/-- The pieces of a text between its newlines (`strings.Split(s, "\n")`). -/
def splitLines : List Char → List (List Char)
  | [] => [[]]
  | c :: cs =>
    if c = '\n' then [] :: splitLines cs
    else
      match splitLines cs with
      | [] => [[c]]
      | l :: ls => (c :: l) :: ls

/-- The line of the legend (lines 364-367), without its newlines. -/
def legendLine : String :=
  "Legend: ░ = Monitor  ▓ = Active Monitor  █ = Selected for Movement"

/-- A monitor whose name holds a newline. -/
def newlineMonitor : Monitor :=
  { Name := "A\nB", X := 0, Y := 0, Width := 200, Height := 80, Selected := false }

/-- Two monitors whose rectangles overlap on the columns 5 to 9. -/
def overlapLayout : List Monitor :=
  [ { Name := "A", X := 0, Y := 0, Width := 200, Height := 160, Selected := false },
    { Name := "B", X := 100, Y := 0, Width := 200, Height := 160, Selected := false } ]

/-- The second monitor of `overlapLayout`. -/
def overlapSecond : Monitor :=
  { Name := "B", X := 100, Y := 0, Width := 200, Height := 160, Selected := false }

/-- A cell of one character that is not a newline. -/
def cleanCell (c : String) : Prop := c.length = 1 ∧ '\n' ∉ c.data

/-! ## Basic facts about the embedding -/

theorem indexMonitor_eq_some {monitors : List Monitor} {i : Int}
    (h0 : 0 ≤ i) (h1 : i < monitors.length) :
    ∃ mon, indexMonitor monitors i = some mon ∧ monitors.get? i.toNat = some mon := by
  have hlt : i.toNat < monitors.length := by omega
  refine ⟨monitors.get ⟨i.toNat, hlt⟩, ?_, List.get?_eq_get hlt⟩
  unfold indexMonitor
  rw [if_pos ⟨h0, h1⟩]
  exact List.get?_eq_get hlt

theorem indexMonitor_eq_none {monitors : List Monitor} {i : Int}
    (h : ¬ (0 ≤ i ∧ i < monitors.length)) : indexMonitor monitors i = none := by
  unfold indexMonitor
  rw [if_neg h]

theorem indexMonitor_some_iff {monitors : List Monitor} {i : Int} {mon : Monitor} :
    indexMonitor monitors i = some mon ↔
      (0 ≤ i ∧ i < monitors.length) ∧ monitors.get? i.toNat = some mon := by
  unfold indexMonitor
  by_cases h : 0 ≤ i ∧ i < monitors.length
  · rw [if_pos h]; simp [h]
  · rw [if_neg h]; simp [h]

@[simp] theorem setActive_activeIndex (m : Model) (mon : Monitor) :
    (setActive m mon).activeIndex = m.activeIndex := rfl

@[simp] theorem setActive_keys (m : Model) (mon : Monitor) :
    (setActive m mon).keys = m.keys := rfl

@[simp] theorem setActive_monitors (m : Model) (mon : Monitor) :
    (setActive m mon).monitors = m.monitors.set m.activeIndex.toNat mon := rfl

@[simp] theorem setActive_length (m : Model) (mon : Monitor) :
    (setActive m mon).monitors.length = m.monitors.length := by
  simp [setActive]

/-- What a key does to a model whose cursor points at `mon`: the call returns,
the bindings are kept, and either the layout is untouched (the cursor staying,
or moving to a valid index when `mon` is not selected), or the active monitor
is replaced by one of the same name and size. -/
theorem updateKey_spec (m : Model) (c : KeyCase) (mon : Monitor)
    (hidx : indexMonitor m.monitors m.activeIndex = some mon) :
    ∃ m' cmd, updateKey m c = some (m', cmd) ∧ m'.keys = m.keys ∧
      ((m'.monitors = m.monitors ∧
          (m'.activeIndex = m.activeIndex ∨
            (mon.Selected = false ∧ 0 ≤ m'.activeIndex ∧
              m'.activeIndex < m.monitors.length))) ∨
        (∃ mon', m' = setActive m mon' ∧ mon'.Name = mon.Name ∧
          mon'.Width = mon.Width ∧ mon'.Height = mon.Height)) := by
  have hv := (indexMonitor_some_iff.mp hidx).1
  cases c <;> simp only [updateKey, hidx]
  case Quit => exact ⟨_, _, rfl, rfl, Or.inl ⟨rfl, Or.inl rfl⟩⟩
  case Apply => exact ⟨_, _, rfl, rfl, Or.inl ⟨rfl, Or.inl rfl⟩⟩
  case Copy => exact ⟨_, _, rfl, rfl, Or.inl ⟨rfl, Or.inl rfl⟩⟩
  case noMatch => exact ⟨_, _, rfl, rfl, Or.inl ⟨rfl, Or.inl rfl⟩⟩
  case Select => exact ⟨_, _, rfl, rfl, Or.inr ⟨_, rfl, rfl, rfl, rfl⟩⟩
  case Up =>
    by_cases hs : mon.Selected = true
    · rw [if_pos hs]; exact ⟨_, _, rfl, rfl, Or.inr ⟨_, rfl, rfl, rfl, rfl⟩⟩
    · rw [if_neg hs]
      by_cases hp : m.activeIndex > 0
      · rw [if_pos hp]
        refine ⟨_, _, rfl, rfl, Or.inl ⟨rfl, Or.inr ⟨by simpa using hs, ?_, ?_⟩⟩⟩
        · show 0 ≤ m.activeIndex - 1
          omega
        · show m.activeIndex - 1 < m.monitors.length
          omega
      · rw [if_neg hp]; exact ⟨_, _, rfl, rfl, Or.inl ⟨rfl, Or.inl rfl⟩⟩
  case Down =>
    by_cases hs : mon.Selected = true
    · rw [if_pos hs]; exact ⟨_, _, rfl, rfl, Or.inr ⟨_, rfl, rfl, rfl, rfl⟩⟩
    · rw [if_neg hs]
      by_cases hp : m.activeIndex < (m.monitors.length : Int) - 1
      · rw [if_pos hp]
        refine ⟨_, _, rfl, rfl, Or.inl ⟨rfl, Or.inr ⟨by simpa using hs, ?_, ?_⟩⟩⟩
        · show 0 ≤ m.activeIndex + 1
          omega
        · show m.activeIndex + 1 < m.monitors.length
          omega
      · rw [if_neg hp]; exact ⟨_, _, rfl, rfl, Or.inl ⟨rfl, Or.inl rfl⟩⟩
  case Left =>
    by_cases hs : mon.Selected = true
    · rw [if_pos hs]; exact ⟨_, _, rfl, rfl, Or.inr ⟨_, rfl, rfl, rfl, rfl⟩⟩
    · rw [if_neg hs]; exact ⟨_, _, rfl, rfl, Or.inl ⟨rfl, Or.inl rfl⟩⟩
  case Right =>
    by_cases hs : mon.Selected = true
    · rw [if_pos hs]; exact ⟨_, _, rfl, rfl, Or.inr ⟨_, rfl, rfl, rfl, rfl⟩⟩
    · rw [if_neg hs]; exact ⟨_, _, rfl, rfl, Or.inl ⟨rfl, Or.inl rfl⟩⟩

/-- The same for every message of `Update`. -/
theorem Update_spec (m : Model) (msg : Msg) (mon : Monitor)
    (hidx : indexMonitor m.monitors m.activeIndex = some mon) :
    ∃ m' cmd, Update m msg = some (m', cmd) ∧ m'.keys = m.keys ∧
      ((m'.monitors = m.monitors ∧
          (m'.activeIndex = m.activeIndex ∨
            (mon.Selected = false ∧ 0 ≤ m'.activeIndex ∧
              m'.activeIndex < m.monitors.length))) ∨
        (∃ mon', m' = setActive m mon' ∧ mon'.Name = mon.Name ∧
          mon'.Width = mon.Width ∧ mon'.Height = mon.Height)) := by
  cases msg with
  | KeyMsg s => exact updateKey_spec m _ mon hidx
  | WindowSizeMsg w h => exact ⟨_, _, rfl, rfl, Or.inl ⟨rfl, Or.inl rfl⟩⟩
  | other => exact ⟨_, _, rfl, rfl, Or.inl ⟨rfl, Or.inl rfl⟩⟩

/-- A valid cursor stays valid, and the layout keeps its length. -/
theorem Update_validIndex (m : Model) (msg : Msg) (hv : validIndex m) :
    ∃ m' cmd, Update m msg = some (m', cmd) ∧ validIndex m' ∧
      m'.monitors.length = m.monitors.length := by
  obtain ⟨mon, hidx, -⟩ := indexMonitor_eq_some hv.1 hv.2
  obtain ⟨m', cmd, hu, -, h⟩ := Update_spec m msg mon hidx
  refine ⟨m', cmd, hu, ?_⟩
  rcases h with ⟨hm, hc⟩ | ⟨mon', rfl, -⟩
  · refine ⟨?_, by rw [hm]⟩
    unfold validIndex
    rw [hm]
    rcases hc with hc | ⟨-, h0, h1⟩
    · rw [hc]; exact hv
    · exact ⟨h0, h1⟩
  · exact ⟨by unfold validIndex; simpa using hv, by simp⟩

/-- A valid cursor coupled with the selection stays so. -/
theorem Update_coupled (m : Model) (msg : Msg) (h : validIndex m ∧ coupled m) :
    ∃ m' cmd, Update m msg = some (m', cmd) ∧ (validIndex m' ∧ coupled m') := by
  obtain ⟨hv, hc⟩ := h
  obtain ⟨mon, hidx, hget⟩ := indexMonitor_eq_some hv.1 hv.2
  obtain ⟨m', cmd, hu, -, hshape⟩ := Update_spec m msg mon hidx
  obtain ⟨m1, cmd1, hu1, hv1, -⟩ := Update_validIndex m msg hv
  rw [hu] at hu1
  cases hu1
  refine ⟨m', cmd, hu, hv1, ?_⟩
  rcases hshape with ⟨hm, hcur⟩ | ⟨mon', rfl, -⟩
  · intro j mj hj hs
    rw [hm] at hj
    have hja := hc j mj hj hs
    rcases hcur with hcur | ⟨hns, -, -⟩
    · rw [hcur]; exact hja
    · exfalso
      have hj' : m.monitors.get? m.activeIndex.toNat = some mj := by
        rw [← hja]; simpa using hj
      rw [hget] at hj'
      cases hj'
      rw [hns] at hs
      cases hs
  · intro j mj hj hs
    by_cases hja : (j : Int) = m.activeIndex
    · simpa using hja
    · have hne : m.activeIndex.toNat ≠ j := by have := hv.1; omega
      rw [setActive_monitors, List.get?_eq_getElem?, List.getElem?_set_ne hne,
        ← List.get?_eq_getElem?] at hj
      exact absurd (hc j mj hj hs) hja

/-- Inside the range of `int` the wrap-around is the identity. -/
theorem wrapInt_of_isInt {v : Int} (h : isInt v) : wrapInt v = v := by
  unfold isInt minInt maxInt intBits at h
  unfold wrapInt intBits
  norm_num at h ⊢
  omega

/-- The result of a Go `int` operation is an `int`. -/
theorem isInt_wrapInt (v : Int) : isInt (wrapInt v) := by
  unfold isInt minInt maxInt wrapInt intBits
  norm_num
  omega

/-- Wrapping an intermediate result does not change the wrapped sum. -/
theorem wrapInt_wrapInt_add (a d : Int) : wrapInt (wrapInt a + d) = wrapInt (a + d) := by
  unfold wrapInt intBits
  norm_num
  omega

/-- The monitor under the cursor after the cursor's monitor was assigned. -/
theorem indexMonitor_setActive (m : Model) (mon : Monitor) (hv : validIndex m) :
    indexMonitor (setActive m mon).monitors (setActive m mon).activeIndex = some mon := by
  rw [indexMonitor_some_iff]
  refine ⟨⟨hv.1, by simpa using hv.2⟩, ?_⟩
  have hlt : m.activeIndex.toNat < m.monitors.length := by have := hv.1; have := hv.2; omega
  simp [List.getElem?_set_self hlt]

/-- What the four direction keys do when the cursor's monitor is selected. -/
theorem updateKey_selected (m : Model) (mon : Monitor)
    (hidx : indexMonitor m.monitors m.activeIndex = some mon) (hsel : mon.Selected = true) :
    updateKey m .Up = some (setActive m { mon with Y := wrapInt (mon.Y - 10) }, []) ∧
    updateKey m .Down = some (setActive m { mon with Y := wrapInt (mon.Y + 10) }, []) ∧
    updateKey m .Left = some (setActive m { mon with X := wrapInt (mon.X - 10) }, []) ∧
    updateKey m .Right = some (setActive m { mon with X := wrapInt (mon.X + 10) }, []) := by
  simp [updateKey, hidx, hsel]

/-- What the four direction keys do when the cursor's monitor is not selected. -/
theorem updateKey_unselected (m : Model) (mon : Monitor)
    (hidx : indexMonitor m.monitors m.activeIndex = some mon) (hsel : mon.Selected = false) :
    updateKey m .Up =
      some (if m.activeIndex > 0 then { m with activeIndex := m.activeIndex - 1 } else m, []) ∧
    updateKey m .Down =
      some (if m.activeIndex < (m.monitors.length : Int) - 1
        then { m with activeIndex := m.activeIndex + 1 } else m, []) ∧
    updateKey m .Left = some (m, []) ∧
    updateKey m .Right = some (m, []) := by
  refine ⟨?_, ?_, ?_, ?_⟩
  · by_cases h : m.activeIndex > 0 <;> simp [updateKey, hidx, hsel, h]
  · by_cases h : m.activeIndex < (m.monitors.length : Int) - 1 <;>
      simp [updateKey, hidx, hsel, h]
  · simp [updateKey, hidx, hsel]
  · simp [updateKey, hidx, hsel]

/-- A loop that appends one element per item is a `map`. -/
theorem foldl_append_singleton {α β : Type} (f : α → β) (l : List α) (init : List β) :
    l.foldl (fun acc x => acc ++ [f x]) init = init ++ l.map f := by
  induction l generalizing init with
  | nil => simp
  | cons x xs ih => simp [ih]

/-- The list of subcommands `generateHyprlandCommand` joins. -/
theorem generateHyprlandCommand_eq (monitors : List Monitor) :
    generateHyprlandCommand monitors =
      String.intercalate " && " (monitors.map monitorCommand) := by
  unfold generateHyprlandCommand
  simp only [foldl_append_singleton, List.nil_append]

/-- Length of the accumulator loop of `String.intercalate`. -/
theorem intercalate_go_length (sep : String) (l : List String) (acc : String) :
    (String.intercalate.go acc sep l).length =
      acc.length + (l.map String.length).sum + sep.length * l.length := by
  induction l generalizing acc with
  | nil => simp [String.intercalate.go]
  | cons x xs ih =>
    simp only [String.intercalate.go, ih, String.length_append, List.map_cons, List.sum_cons,
      List.length_cons]
    ring

/-- Length of a joined list: the parts, and one separator between neighbours. -/
theorem intercalate_length (sep : String) (l : List String) :
    (String.intercalate sep l).length =
      (l.map String.length).sum + sep.length * (l.length - 1) := by
  cases l with
  | nil => simp [String.intercalate]
  | cons x xs =>
    simp only [String.intercalate, intercalate_go_length, List.map_cons, List.sum_cons,
      List.length_cons, Nat.add_sub_cancel]

/-- The conversion loop keeps the number of records. -/
theorem convertMonitors_length (hyprMonitors : List HyprMonitor) :
    (convertMonitors hyprMonitors).length = hyprMonitors.length := by
  unfold convertMonitors
  rw [foldl_append_singleton]
  simp

/-- The layout `getMonitors` returns is not empty. -/
theorem getMonitors_length_pos (q : QueryOutcome) : 1 ≤ (getMonitors q).length := by
  cases q with
  | invocationError => decide
  | unparsable => decide
  | parsed hyprMonitors =>
    simp only [getMonitors]
    split_ifs with h
    · decide
    · omega

/-- Assigning the cursor's monitor to itself changes nothing. -/
theorem setActive_self (m : Model) (mon : Monitor)
    (hidx : indexMonitor m.monitors m.activeIndex = some mon) : setActive m mon = m := by
  obtain ⟨-, hget⟩ := indexMonitor_some_iff.mp hidx
  have : m.monitors.set m.activeIndex.toNat mon = m.monitors := by
    apply List.ext_get?
    intro i
    by_cases hi : m.activeIndex.toNat = i
    · subst hi
      rw [hget, List.get?_eq_getElem?, List.getElem?_set_self]
      have := List.get?_eq_some.mp hget
      exact this.1
    · rw [List.get?_eq_getElem?, List.getElem?_set_ne hi, List.get?_eq_getElem?]
  cases m
  simp only [setActive, Model.mk.injEq, and_true, true_and] at this ⊢
  exact this

/-- Two assignments of the cursor's monitor amount to the last. -/
theorem setActive_setActive (m : Model) (a b : Monitor) :
    setActive (setActive m a) b = setActive m b := by
  simp [setActive, List.set_set]

/-- The function `moved` keeps the selection flag. -/
theorem moved_Selected (c : KeyCase) (mon : Monitor) : (moved c mon).Selected = mon.Selected := by
  cases c <;> rfl

/-- One direction key on a selected monitor, as a step of `run`. -/
theorem Update_direction (m : Model) (s : String) (mon : Monitor)
    (hidx : indexMonitor m.monitors m.activeIndex = some mon) (hsel : mon.Selected = true)
    (hdir : isDirection (keyCase m.keys s) = true) :
    Update m (.KeyMsg s) = some (setActive m (moved (keyCase m.keys s) mon), []) := by
  obtain ⟨hU, hD, hL, hR⟩ := updateKey_selected m mon hidx hsel
  simp only [Update]
  cases hc : keyCase m.keys s <;> rw [hc] at hdir <;>
    first
      | exact absurd hdir (by decide)
      | assumption

/-- A sequence of direction keys on a selected monitor is processed without
failure and only replaces the cursor's monitor. -/
theorem run_directions (ss : List String) :
    ∀ (m : Model) (mon : Monitor),
      indexMonitor m.monitors m.activeIndex = some mon → mon.Selected = true →
      (∀ s ∈ ss, isDirection (keyCase m.keys s) = true) →
      run m (ss.map .KeyMsg) = some (setActive m (movedAll m.keys ss mon)) := by
  induction ss with
  | nil =>
    intro m mon hidx _ _
    simp only [List.map_nil, run, movedAll, List.foldl_nil]
    rw [setActive_self m mon hidx]
  | cons s rest ih =>
    intro m mon hidx hsel hdir
    have hv : validIndex m := (indexMonitor_some_iff.mp hidx).1
    have hstep := Update_direction m s mon hidx hsel (hdir s (List.mem_cons_self _ _))
    simp only [List.map_cons, run, hstep]
    rw [ih (setActive m (moved (keyCase m.keys s) mon)) (moved (keyCase m.keys s) mon)
      (indexMonitor_setActive m _ hv) (by rw [moved_Selected]; exact hsel)
      (fun t ht => hdir t (List.mem_cons_of_mem _ ht))]
    rw [setActive_setActive]
    rfl

/-- Two direction moves commute. -/
theorem moved_comm (c1 c2 : KeyCase) (mon : Monitor) :
    moved c1 (moved c2 mon) = moved c2 (moved c1 mon) := by
  have h1 : ∀ a : Int, wrapInt (wrapInt (a - 10) + 10) = wrapInt (wrapInt (a + 10) - 10) := by
    intro a
    rw [sub_eq_add_neg (wrapInt (a + 10)), wrapInt_wrapInt_add, wrapInt_wrapInt_add]
    congr 1
    ring
  cases c1 <;> cases c2 <;> simp only [moved] <;> first | rfl | rw [h1]

/-- The monitor left by a sequence of keys: both coordinates are the wrapped
sums. -/
theorem movedAll_eq (keys : keyMap) (ss : List String) :
    ∀ mon : Monitor, isInt mon.X → isInt mon.Y →
      movedAll keys ss mon =
        { mon with X := wrapInt (mon.X + sumDX keys ss), Y := wrapInt (mon.Y + sumDY keys ss) } := by
  induction ss with
  | nil =>
    intro mon hX hY
    simp [movedAll, sumDX, sumDY, wrapInt_of_isInt hX, wrapInt_of_isInt hY]
  | cons s rest ih =>
    intro mon hX hY
    have hstep : movedAll keys (s :: rest) mon = movedAll keys rest (moved (keyCase keys s) mon) :=
      rfl
    have hsx : sumDX keys (s :: rest) = (delta (keyCase keys s)).1 + sumDX keys rest := by
      simp [sumDX]
    have hsy : sumDY keys (s :: rest) = (delta (keyCase keys s)).2 + sumDY keys rest := by
      simp [sumDY]
    rw [hstep, hsx, hsy]
    cases hc : keyCase keys s
    case Up =>
      rw [ih (moved .Up mon) hX (isInt_wrapInt _)]
      simp only [moved, delta, wrapInt_wrapInt_add, zero_add]
      congr 2
      ring
    case Down =>
      rw [ih (moved .Down mon) hX (isInt_wrapInt _)]
      simp only [moved, delta, wrapInt_wrapInt_add, zero_add]
      congr 2
      ring
    case Left =>
      rw [ih (moved .Left mon) (isInt_wrapInt _) hY]
      simp only [moved, delta, wrapInt_wrapInt_add, zero_add]
      congr 2
      ring
    case Right =>
      rw [ih (moved .Right mon) (isInt_wrapInt _) hY]
      simp only [moved, delta, wrapInt_wrapInt_add, zero_add]
      congr 2
      ring
    all_goals
      simp only [moved, delta, add_zero, zero_add]
      exact ih mon hX hY

/-- A property kept by every call of `Update` is kept by `run`, which then
returns. -/
theorem run_invariant (P : Model → Prop)
    (hstep : ∀ m msg, P m → ∃ m' cmd, Update m msg = some (m', cmd) ∧ P m') :
    ∀ (msgs : List Msg) (m : Model), P m → ∃ m', run m msgs = some m' ∧ P m' := by
  intro msgs
  induction msgs with
  | nil => intro m hm; exact ⟨m, rfl, hm⟩
  | cons msg rest ih =>
    intro m hm
    obtain ⟨m1, cmd, hu, h1⟩ := hstep m msg hm
    obtain ⟨m2, hr, h2⟩ := ih m1 h1
    exact ⟨m2, by simp only [run, hu, hr], h2⟩

/-! ## Properties -/

/-- C1. Cursor validity: from a model with `N` monitors and a cursor in
`[0, N-1]` (so that `N ≥ 1`), every finite sequence of messages (keys of any binding, window
resizes, others) is processed by `Update` without failure, and afterwards the
cursor is still in `[0, N-1]` and the layout still has `N` monitors. -/
theorem cursor_valid_after_events (m : Model) (msgs : List Msg)
    (hv : 0 ≤ m.activeIndex ∧ m.activeIndex ≤ (m.monitors.length : Int) - 1) :
    ∃ m', run m msgs = some m' ∧
      (0 ≤ m'.activeIndex ∧ m'.activeIndex ≤ (m.monitors.length : Int) - 1) ∧
      m'.monitors.length = m.monitors.length := by
  have h := run_invariant
    (fun x => validIndex x ∧ x.monitors.length = m.monitors.length)
    (fun x msg hx => by
      obtain ⟨x', cmd, hu, hv', hl⟩ := Update_validIndex x msg hx.1
      exact ⟨x', cmd, hu, hv', hl.trans hx.2⟩)
    msgs m ⟨⟨hv.1, by omega⟩, rfl⟩
  obtain ⟨m', hr, ⟨h0, h1⟩, hl⟩ := h
  exact ⟨m', hr, ⟨h0, by rw [hl] at h1; omega⟩, hl⟩

/-- Witness of C1 on the default layout, cursor on the last monitor. -/
theorem cursor_valid_after_events_witness :
    ∃ m', run { initialModel .invocationError with activeIndex := 2 }
        [.KeyMsg "down", .KeyMsg "enter", .KeyMsg "j", .WindowSizeMsg 120 40,
         .KeyMsg "enter", .KeyMsg "up", .KeyMsg "a", .KeyMsg "c", .KeyMsg "q"] = some m' ∧
      (0 ≤ m'.activeIndex ∧ m'.activeIndex ≤ ((3 : Nat) : Int) - 1) ∧
      m'.monitors.length = 3 :=
  cursor_valid_after_events { initialModel .invocationError with activeIndex := 2 } _
    (by decide)

/-- C2. Selection and cursor are coupled: from a model with `N ≥ 1` monitors,
the cursor at 0 and no monitor selected (what `initialModel` produces), every
finite sequence of messages is processed without failure and afterwards every
monitor whose `Selected` flag is set is the monitor under the cursor. -/
theorem selection_coupled_after_events (m : Model) (msgs : List Msg)
    (hN : 1 ≤ m.monitors.length) (h0 : m.activeIndex = 0)
    (hsel : ∀ mon ∈ m.monitors, mon.Selected = false) :
    ∃ m', run m msgs = some m' ∧
      ∀ (j : Nat) (mon : Monitor), m'.monitors.get? j = some mon → mon.Selected = true →
        (j : Int) = m'.activeIndex := by
  have hstart : validIndex m ∧ coupled m := by
    refine ⟨⟨by omega, by omega⟩, ?_⟩
    intro j mon hj hs
    have := hsel mon (List.get?_mem hj)
    rw [this] at hs
    cases hs
  obtain ⟨m', hr, -, hc⟩ := run_invariant (fun x => validIndex x ∧ coupled x)
    Update_coupled msgs m hstart
  exact ⟨m', hr, hc⟩

/-- Witness of C2 on the model `initialModel` builds when the query fails. -/
theorem selection_coupled_after_events_witness :
    ∃ m', run (initialModel .invocationError)
        [.KeyMsg "down", .KeyMsg "enter", .KeyMsg "l", .KeyMsg "up", .KeyMsg "space",
         .KeyMsg "k"] = some m' ∧
      ∀ (j : Nat) (mon : Monitor), m'.monitors.get? j = some mon → mon.Selected = true →
        (j : Int) = m'.activeIndex :=
  selection_coupled_after_events (initialModel .invocationError) _
    (by decide) (by decide) (by decide)

/-- C3, as stated, fails: on a selected monitor whose `Y` is the smallest Go
`int`, Up leaves `Y = 9223372036854775798` (the subtraction wraps around),
which is not `Y - 10`. -/
theorem moving_step_exact_counterexample :
    validIndex lowestModel ∧
    (indexMonitor lowestModel.monitors lowestModel.activeIndex).map
      (fun mon => (mon.Selected, mon.X, mon.Y)) = some (true, 0, -9223372036854775808) ∧
    isInt (-9223372036854775808) ∧
    keyCase lowestModel.keys "up" = KeyCase.Up ∧
    (activeAfter lowestModel (.KeyMsg "up")).map (fun mon => (mon.X, mon.Y)) =
      some (0, 9223372036854775798) ∧
    (activeAfter lowestModel (.KeyMsg "up")).map (fun mon => (mon.X, mon.Y)) ≠
      some (0 + 0, -9223372036854775808 + (-10)) := by
  decide

/-- C3, amended. When the cursor is valid and its monitor `mon` is selected,
Update on Up, Down, Left, Right returns, leaves the cursor where it is, and
leaves under it `mon` with `Y - 10`, `Y + 10`, `X - 10`, `X + 10` computed in
Go's wrapping `int` arithmetic (every other field kept); whenever the new
coordinate fits in an `int`, that is `mon` translated by exactly `(0,-10)`,
`(0,+10)`, `(-10,0)`, `(+10,0)`. -/
theorem moving_step (m : Model) (s : String) (mon : Monitor)
    (hidx : indexMonitor m.monitors m.activeIndex = some mon) (hsel : mon.Selected = true) :
    (keyCase m.keys s = .Up →
      ∃ m' cmd, Update m (.KeyMsg s) = some (m', cmd) ∧ m'.activeIndex = m.activeIndex ∧
        indexMonitor m'.monitors m'.activeIndex = some { mon with Y := wrapInt (mon.Y - 10) } ∧
        (isInt (mon.Y - 10) →
          indexMonitor m'.monitors m'.activeIndex = some (translated mon 0 (-10)))) ∧
    (keyCase m.keys s = .Down →
      ∃ m' cmd, Update m (.KeyMsg s) = some (m', cmd) ∧ m'.activeIndex = m.activeIndex ∧
        indexMonitor m'.monitors m'.activeIndex = some { mon with Y := wrapInt (mon.Y + 10) } ∧
        (isInt (mon.Y + 10) →
          indexMonitor m'.monitors m'.activeIndex = some (translated mon 0 10))) ∧
    (keyCase m.keys s = .Left →
      ∃ m' cmd, Update m (.KeyMsg s) = some (m', cmd) ∧ m'.activeIndex = m.activeIndex ∧
        indexMonitor m'.monitors m'.activeIndex = some { mon with X := wrapInt (mon.X - 10) } ∧
        (isInt (mon.X - 10) →
          indexMonitor m'.monitors m'.activeIndex = some (translated mon (-10) 0))) ∧
    (keyCase m.keys s = .Right →
      ∃ m' cmd, Update m (.KeyMsg s) = some (m', cmd) ∧ m'.activeIndex = m.activeIndex ∧
        indexMonitor m'.monitors m'.activeIndex = some { mon with X := wrapInt (mon.X + 10) } ∧
        (isInt (mon.X + 10) →
          indexMonitor m'.monitors m'.activeIndex = some (translated mon 10 0))) := by
  have hv : validIndex m := (indexMonitor_some_iff.mp hidx).1
  obtain ⟨hU, hD, hL, hR⟩ := updateKey_selected m mon hidx hsel
  refine ⟨?_, ?_, ?_, ?_⟩ <;> intro hk
  · refine ⟨setActive m _, [], by simp only [Update, hk]; exact hU, rfl,
      indexMonitor_setActive m _ hv, ?_⟩
    intro hr
    rw [indexMonitor_setActive m _ hv, wrapInt_of_isInt hr]
    simp [translated, sub_eq_add_neg]
  · refine ⟨setActive m _, [], by simp only [Update, hk]; exact hD, rfl,
      indexMonitor_setActive m _ hv, ?_⟩
    intro hr
    rw [indexMonitor_setActive m _ hv, wrapInt_of_isInt hr]
    simp [translated]
  · refine ⟨setActive m _, [], by simp only [Update, hk]; exact hL, rfl,
      indexMonitor_setActive m _ hv, ?_⟩
    intro hr
    rw [indexMonitor_setActive m _ hv, wrapInt_of_isInt hr]
    simp [translated, sub_eq_add_neg]
  · refine ⟨setActive m _, [], by simp only [Update, hk]; exact hR, rfl,
      indexMonitor_setActive m _ hv, ?_⟩
    intro hr
    rw [indexMonitor_setActive m _ hv, wrapInt_of_isInt hr]
    simp [translated]

/-- Witness of C3: Right on the selected `DP-2` of the default layout. -/
theorem moving_step_witness :
    indexMonitor movingModel.monitors movingModel.activeIndex = some movingMonitor ∧
    movingMonitor.Selected = true ∧
    keyCase movingModel.keys "l" = .Right ∧
    ∃ m' cmd, Update movingModel (.KeyMsg "l") = some (m', cmd) ∧
      m'.activeIndex = movingModel.activeIndex ∧
      indexMonitor m'.monitors m'.activeIndex =
        some { movingMonitor with X := wrapInt (movingMonitor.X + 10) } ∧
      (isInt (movingMonitor.X + 10) →
        indexMonitor m'.monitors m'.activeIndex = some (translated movingMonitor 10 0)) :=
  ⟨by decide, by decide, by decide,
    (moving_step movingModel "l" movingMonitor (by decide) (by decide)).2.2.2 (by decide)⟩

/-- C4. Frame of one message: with a valid cursor, `Update` returns, the
layout keeps its length, the monitor at every index keeps its `Name`, `Width`
and `Height`, and the monitor at every index other than the cursor is kept
whole (so only `X`, `Y`, `Selected` of the cursor's monitor can change). -/
theorem frame_of_event (m : Model) (msg : Msg) (hv : validIndex m) :
    ∃ m' cmd, Update m msg = some (m', cmd) ∧
      m'.monitors.length = m.monitors.length ∧
      ∀ (j : Nat) (mon : Monitor), m.monitors.get? j = some mon →
        ∃ mon', m'.monitors.get? j = some mon' ∧ mon'.Name = mon.Name ∧
          mon'.Width = mon.Width ∧ mon'.Height = mon.Height ∧
          ((j : Int) ≠ m.activeIndex → mon' = mon) := by
  obtain ⟨act, hidx, hget⟩ := indexMonitor_eq_some hv.1 hv.2
  obtain ⟨m', cmd, hu, -, hshape⟩ := Update_spec m msg act hidx
  refine ⟨m', cmd, hu, ?_⟩
  rcases hshape with ⟨hm, -⟩ | ⟨mon', rfl, hn, hw, hh⟩
  · rw [hm]
    exact ⟨rfl, fun j mon hj => ⟨mon, hj, rfl, rfl, rfl, fun _ => rfl⟩⟩
  · refine ⟨by simp, ?_⟩
    intro j mon hj
    by_cases hja : m.activeIndex.toNat = j
    · have hlt : m.activeIndex.toNat < m.monitors.length := by
        have := hv.1; have := hv.2; omega
      have hmon : mon = act := by
        rw [hja] at hget; rw [hget] at hj; cases hj; rfl
      refine ⟨mon', ?_, by rw [hmon]; exact hn, by rw [hmon]; exact hw,
        by rw [hmon]; exact hh, ?_⟩
      · rw [← hja]
        simp [List.getElem?_set_self hlt]
      · intro hne
        have := hv.1
        omega
    · refine ⟨mon, ?_, rfl, rfl, rfl, fun _ => rfl⟩
      rw [setActive_monitors, List.get?_eq_getElem?, List.getElem?_set_ne hja,
        ← List.get?_eq_getElem?]
      exact hj

/-- Witness of C4, scenario B: from the default layout, Down, Select and three
times Right move `DP-2` from `x = 1920` to `x = 1950` and leave `eDP-1` at
`(0,0)` and `DP-4` at `(3840,0)`; the frame property is applied to the first
Right. -/
theorem frame_of_event_witness :
    validIndex movingModel ∧
    (∃ m' cmd, Update movingModel (.KeyMsg "right") = some (m', cmd) ∧
      m'.monitors.length = movingModel.monitors.length ∧
      ∀ (j : Nat) (mon : Monitor), movingModel.monitors.get? j = some mon →
        ∃ mon', m'.monitors.get? j = some mon' ∧ mon'.Name = mon.Name ∧
          mon'.Width = mon.Width ∧ mon'.Height = mon.Height ∧
          ((j : Int) ≠ movingModel.activeIndex → mon' = mon)) ∧
    run (initialModel .invocationError) [.KeyMsg "down", .KeyMsg "enter"] = some movingModel ∧
    (run (initialModel .invocationError) scenarioB).map
        (fun m => m.monitors.map (fun mon => (mon.Name, mon.X, mon.Y, mon.Width, mon.Height))) =
      some [("eDP-1", 0, 0, 1920, 1080), ("DP-2", 1950, 0, 1920, 1080),
            ("DP-4", 3840, 0, 2560, 1440)] :=
  ⟨by decide, frame_of_event movingModel (.KeyMsg "right") (by decide), by decide, by decide⟩

/-- C5. Command format: `generateHyprlandCommand` returns the subcommands
`hyprctl keyword monitor '<Name>,highres,<X>,<Y>,1'` (coordinates in signed
decimal), one per monitor in layout order, joined by `" && "`: `N` subcommands
and `N - 1` separators of 4 characters, the empty string for the empty layout,
and for the default layout (scenario C) three subcommands with `(0,0)`,
`(1920,0)` and `(3840,0)`. -/
theorem command_format (monitors : List Monitor) :
    generateHyprlandCommand monitors =
      String.intercalate " && " (monitors.map monitorCommand) ∧
    (∀ mon : Monitor, monitorCommand mon =
      "hyprctl keyword monitor '" ++ mon.Name ++ ",highres," ++ toString mon.X ++ "," ++
        toString mon.Y ++ ",1'") ∧
    (monitors.map monitorCommand).length = monitors.length ∧
    (generateHyprlandCommand monitors).length =
      ((monitors.map monitorCommand).map String.length).sum + 4 * (monitors.length - 1) ∧
    generateHyprlandCommand [] = "" ∧
    monitorCommand { Name := "HDMI-A-1", X := -1920, Y := 10, Width := 1920, Height := 1080,
                     Selected := true } = "hyprctl keyword monitor 'HDMI-A-1,highres,-1920,10,1'" ∧
    generateHyprlandCommand defaultMonitors =
      "hyprctl keyword monitor 'eDP-1,highres,0,0,1' && hyprctl keyword monitor 'DP-2,highres,1920,0,1' && hyprctl keyword monitor 'DP-4,highres,3840,0,1'" := by
  refine ⟨generateHyprlandCommand_eq monitors, fun _ => rfl, by simp, ?_, by decide, by decide,
    by decide⟩
  rw [generateHyprlandCommand_eq, intercalate_length]
  simp only [List.length_map]
  rfl

/-- C7. The command generator depends only on names and positions: two
layouts of the same length whose monitors agree pairwise, in order, on `Name`,
`X` and `Y` give the same command string, whatever their `Width`, `Height`
and `Selected`. -/
theorem command_depends_on_name_position (l1 l2 : List Monitor)
    (hlen : l1.length = l2.length)
    (hagree : ∀ (i : Nat) (a b : Monitor), l1.get? i = some a → l2.get? i = some b →
      a.Name = b.Name ∧ a.X = b.X ∧ a.Y = b.Y) :
    generateHyprlandCommand l1 = generateHyprlandCommand l2 := by
  rw [generateHyprlandCommand_eq, generateHyprlandCommand_eq]
  congr 1
  apply List.ext_get?
  intro i
  rw [List.get?_eq_getElem?, List.get?_eq_getElem?, List.getElem?_map, List.getElem?_map,
    ← List.get?_eq_getElem?, ← List.get?_eq_getElem?]
  cases h1 : l1.get? i with
  | none =>
    have : l2.get? i = none := by
      rw [List.get?_eq_none] at h1 ⊢
      omega
    rw [this]
  | some a =>
    cases h2 : l2.get? i with
    | none =>
      have : l1.get? i = none := by
        rw [List.get?_eq_none] at h2 ⊢
        omega
      rw [this] at h1
      cases h1
    | some b =>
      obtain ⟨hn, hx, hy⟩ := hagree i a b h1 h2
      simp [monitorCommand, hn, hx, hy]

/-- Witness of C7: the default layout against the same names and positions
with other sizes and a selected monitor. -/
theorem command_depends_on_name_position_witness :
    generateHyprlandCommand defaultMonitors =
      generateHyprlandCommand
        [ { Name := "eDP-1", X := 0, Y := 0, Width := 1366, Height := 768, Selected := true },
          { Name := "DP-2", X := 1920, Y := 0, Width := 3840, Height := 2160, Selected := false },
          { Name := "DP-4", X := 3840, Y := 0, Width := 1, Height := 1, Selected := false } ] :=
  command_depends_on_name_position _ _ (by decide) (by
    intro i a b h1 h2
    match i, h1, h2 with
    | 0, h1, h2 => cases h1; cases h2; decide
    | 1, h1, h2 => cases h1; cases h2; decide
    | 2, h1, h2 => cases h1; cases h2; decide
    | (n + 3), h1, _ => cases h1)

/-- C8, as stated, fails: on the empty layout with the cursor at 0, `Update`
on Up, Down, Left, Right and Select does not return a model, the index
expression `m.monitors[m.activeIndex]` being out of range. -/
theorem empty_layout_counterexample :
    emptyModel.monitors.length = 0 ∧ emptyModel.activeIndex = 0 ∧
    Update emptyModel (.KeyMsg "up") = none ∧
    Update emptyModel (.KeyMsg "down") = none ∧
    Update emptyModel (.KeyMsg "left") = none ∧
    Update emptyModel (.KeyMsg "right") = none ∧
    Update emptyModel (.KeyMsg "enter") = none := by
  decide

/-- C8, amended. On a model with an empty layout, `Update` fails (out-of-range
index) on every key of Up, Down, Left, Right and Select, and returns the same
empty layout and cursor for every other message (Quit, Apply, Copy, unbound
keys, window resize, other messages); the program never reaches such a model:
the layout of `initialModel` is not empty and every sequence of messages from
it is processed without failure, the layout keeping its length. -/
theorem empty_layout_step (m : Model) (hempty : m.monitors = []) :
    (∀ s, indexesLayout (keyCase m.keys s) = true → Update m (.KeyMsg s) = none) ∧
    (∀ msg, (∀ s, msg = .KeyMsg s → indexesLayout (keyCase m.keys s) = false) →
      ∃ m' cmd, Update m msg = some (m', cmd) ∧ m'.monitors = [] ∧
        m'.activeIndex = m.activeIndex) ∧
    (∀ (q : QueryOutcome) (msgs : List Msg),
      1 ≤ (initialModel q).monitors.length ∧
      ∃ m', run (initialModel q) msgs = some m' ∧
        m'.monitors.length = (initialModel q).monitors.length) := by
  have hnone : indexMonitor m.monitors m.activeIndex = none := by
    apply indexMonitor_eq_none
    rw [hempty]
    simp only [List.length_nil, Nat.cast_zero]
    omega
  refine ⟨?_, ?_, ?_⟩
  · intro s hs
    simp only [Update]
    cases hc : keyCase m.keys s <;> rw [hc] at hs <;>
      first
        | exact absurd hs (by decide)
        | simp only [updateKey, hnone]
  · intro msg hmsg
    cases msg with
    | KeyMsg s =>
      have hs := hmsg s rfl
      simp only [Update]
      cases hc : keyCase m.keys s <;> rw [hc] at hs <;>
        first
          | exact absurd hs (by decide)
          | exact ⟨_, _, rfl, hempty, rfl⟩
    | WindowSizeMsg w h => exact ⟨_, _, rfl, hempty, rfl⟩
    | other => exact ⟨_, _, rfl, hempty, rfl⟩
  · intro q msgs
    have hpos : 1 ≤ (initialModel q).monitors.length := getMonitors_length_pos q
    refine ⟨hpos, ?_⟩
    obtain ⟨m', hr, -, hl⟩ := run_invariant
      (fun x => validIndex x ∧ x.monitors.length = (initialModel q).monitors.length)
      (fun x msg hx => by
        obtain ⟨x', cmd, hu, hv', hl⟩ := Update_validIndex x msg hx.1
        exact ⟨x', cmd, hu, hv', hl.trans hx.2⟩)
      msgs (initialModel q)
      ⟨⟨le_refl _, by show (0 : Int) < _; omega⟩, rfl⟩
    exact ⟨m', hr, hl⟩

/-- Witness of C8 on `emptyModel`: Up fails, a window resize is a no-op. -/
theorem empty_layout_step_witness :
    emptyModel.monitors = [] ∧
    Update emptyModel (.KeyMsg "k") = none ∧
    ∃ m' cmd, Update emptyModel (.WindowSizeMsg 120 40) = some (m', cmd) ∧
      m'.monitors = [] ∧ m'.activeIndex = emptyModel.activeIndex :=
  ⟨rfl, (empty_layout_step emptyModel rfl).1 "k" (by decide),
    (empty_layout_step emptyModel rfl).2.1 (.WindowSizeMsg 120 40)
      (fun s h => by cases h)⟩

/-- C9, as stated, fails in its general part: on a selected monitor whose `X`
is the largest Go `int`, the keys Right, Right leave `X = -9223372036854775789`
(the additions wrap around), which is not the initial `X` plus the sum `20` of
the moves. -/
theorem moves_sum_exact_counterexample :
    (indexMonitor rightmostModel.monitors rightmostModel.activeIndex).map
      (fun mon => (mon.Selected, mon.X, mon.Y)) = some (true, 9223372036854775807, 0) ∧
    isInt 9223372036854775807 ∧
    keyCase rightmostModel.keys "right" = KeyCase.Right ∧
    keyCase rightmostModel.keys "l" = KeyCase.Right ∧
    sumDX rightmostModel.keys ["right", "l"] = 20 ∧
    sumDY rightmostModel.keys ["right", "l"] = 0 ∧
    (run rightmostModel [.KeyMsg "right", .KeyMsg "l"]).bind
      (fun m' => (indexMonitor m'.monitors m'.activeIndex).map (fun mon => (mon.X, mon.Y))) =
        some (-9223372036854775789, 0) ∧
    (run rightmostModel [.KeyMsg "right", .KeyMsg "l"]).bind
      (fun m' => (indexMonitor m'.monitors m'.activeIndex).map (fun mon => (mon.X, mon.Y))) ≠
        some (9223372036854775807 + sumDX rightmostModel.keys ["right", "l"],
              0 + sumDY rightmostModel.keys ["right", "l"]) := by
  decide

/-- C9, amended. When the cursor's monitor `mon` is selected, two direction
keys give the same model in either order; and a sequence of direction keys is
processed without failure, changes nothing but the position of `mon`, which
becomes the initial position plus the sum of the moves computed in Go's
wrapping `int` arithmetic (exactly that sum whenever it fits in an `int`), and
gives the same model in every order of the keys. -/
theorem moves_commute (m : Model) (mon : Monitor)
    (hidx : indexMonitor m.monitors m.activeIndex = some mon) (hsel : mon.Selected = true) :
    (∀ s1 s2, isDirection (keyCase m.keys s1) = true → isDirection (keyCase m.keys s2) = true →
      ∃ m', run m [.KeyMsg s1, .KeyMsg s2] = some m' ∧
        run m [.KeyMsg s2, .KeyMsg s1] = some m') ∧
    (∀ ss : List String, (∀ s ∈ ss, isDirection (keyCase m.keys s) = true) →
      isInt mon.X → isInt mon.Y →
      ∃ m', run m (ss.map .KeyMsg) = some m' ∧
        m' = setActive m { mon with X := wrapInt (mon.X + sumDX m.keys ss),
                                    Y := wrapInt (mon.Y + sumDY m.keys ss) } ∧
        (isInt (mon.X + sumDX m.keys ss) → isInt (mon.Y + sumDY m.keys ss) →
          indexMonitor m'.monitors m'.activeIndex =
            some (translated mon (sumDX m.keys ss) (sumDY m.keys ss))) ∧
        (∀ ss' : List String, ss'.Perm ss → run m (ss'.map .KeyMsg) = some m')) := by
  have hv : validIndex m := (indexMonitor_some_iff.mp hidx).1
  refine ⟨?_, ?_⟩
  · intro s1 s2 h1 h2
    have h12 := run_directions [s1, s2] m mon hidx hsel (by
      intro s hs
      simp only [List.mem_cons, List.mem_singleton, List.not_mem_nil, or_false] at hs
      rcases hs with rfl | rfl <;> assumption)
    have h21 := run_directions [s2, s1] m mon hidx hsel (by
      intro s hs
      simp only [List.mem_cons, List.mem_singleton, List.not_mem_nil, or_false] at hs
      rcases hs with rfl | rfl <;> assumption)
    refine ⟨_, h12, ?_⟩
    rw [show [Msg.KeyMsg s2, Msg.KeyMsg s1] = [s2, s1].map Msg.KeyMsg from rfl, h21]
    simp only [movedAll, List.foldl_cons, List.foldl_nil]
    rw [moved_comm]
  · intro ss hdir hX hY
    refine ⟨_, run_directions ss m mon hidx hsel hdir, by rw [movedAll_eq m.keys ss mon hX hY],
      ?_, ?_⟩
    · intro hsx hsy
      rw [indexMonitor_setActive m _ hv, movedAll_eq m.keys ss mon hX hY,
        wrapInt_of_isInt hsx, wrapInt_of_isInt hsy]
      rfl
    · intro ss' hperm
      rw [run_directions ss' m mon hidx hsel (fun s hs => hdir s (hperm.mem_iff.mp hs)),
        movedAll_eq m.keys ss' mon hX hY, movedAll_eq m.keys ss mon hX hY]
      have hx : sumDX m.keys ss' = sumDX m.keys ss :=
        List.Perm.sum_eq (hperm.map _)
      have hy : sumDY m.keys ss' = sumDY m.keys ss :=
        List.Perm.sum_eq (hperm.map _)
      rw [hx, hy]

/-- Witness of C9: Up and Right on the selected `DP-2` of the default layout,
in both orders. -/
theorem moves_commute_witness :
    indexMonitor movingModel.monitors movingModel.activeIndex = some movingMonitor ∧
    movingMonitor.Selected = true ∧
    ∃ m', run movingModel [.KeyMsg "up", .KeyMsg "l"] = some m' ∧
      run movingModel [.KeyMsg "l", .KeyMsg "up"] = some m' :=
  ⟨by decide, by decide,
    (moves_commute movingModel movingMonitor (by decide) (by decide)).1 "up" "l"
      (by decide) (by decide)⟩

/-- C10. Browsing step: when the cursor is valid (so `N ≥ 1`) and its monitor
is not selected, Up moves the cursor to `max (activeIndex - 1) 0`, Down to
`min (activeIndex + 1) (N - 1)`, both leaving the layout as it is, and Left
and Right return the model unchanged. -/
theorem browsing_step (m : Model) (s : String) (mon : Monitor)
    (hidx : indexMonitor m.monitors m.activeIndex = some mon) (hsel : mon.Selected = false) :
    (keyCase m.keys s = .Up →
      ∃ m' cmd, Update m (.KeyMsg s) = some (m', cmd) ∧
        m'.activeIndex = max (m.activeIndex - 1) 0 ∧ m'.monitors = m.monitors) ∧
    (keyCase m.keys s = .Down →
      ∃ m' cmd, Update m (.KeyMsg s) = some (m', cmd) ∧
        m'.activeIndex = min (m.activeIndex + 1) ((m.monitors.length : Int) - 1) ∧
        m'.monitors = m.monitors) ∧
    (keyCase m.keys s = .Left → Update m (.KeyMsg s) = some (m, [])) ∧
    (keyCase m.keys s = .Right → Update m (.KeyMsg s) = some (m, [])) := by
  have hv : validIndex m := (indexMonitor_some_iff.mp hidx).1
  obtain ⟨h0, h1⟩ := hv
  obtain ⟨hU, hD, hL, hR⟩ := updateKey_unselected m mon hidx hsel
  refine ⟨?_, ?_, ?_, ?_⟩ <;> intro hk
  · refine ⟨_, [], by simp only [Update, hk]; exact hU, ?_, ?_⟩
    · by_cases h : m.activeIndex > 0
      · rw [if_pos h]; show m.activeIndex - 1 = _; omega
      · rw [if_neg h]; omega
    · split_ifs <;> rfl
  · refine ⟨_, [], by simp only [Update, hk]; exact hD, ?_, ?_⟩
    · by_cases h : m.activeIndex < (m.monitors.length : Int) - 1
      · rw [if_pos h]; show m.activeIndex + 1 = _; omega
      · rw [if_neg h]; omega
    · split_ifs <;> rfl
  · simp only [Update, hk]; exact hL
  · simp only [Update, hk]; exact hR

/-- Witness of C10: Down on the first monitor of the default layout. -/
theorem browsing_step_witness :
    indexMonitor (initialModel .invocationError).monitors
        (initialModel .invocationError).activeIndex =
      some firstMonitor ∧
    firstMonitor.Selected = false ∧
    keyCase (initialModel .invocationError).keys "j" = .Down ∧
    ∃ m' cmd, Update (initialModel .invocationError) (.KeyMsg "j") = some (m', cmd) ∧
      m'.activeIndex =
        min ((initialModel .invocationError).activeIndex + 1)
          (((initialModel .invocationError).monitors.length : Int) - 1) ∧
      m'.monitors = (initialModel .invocationError).monitors :=
  ⟨by decide, by decide, by decide,
    (browsing_step (initialModel .invocationError) "j" firstMonitor (by decide)
      (by decide)).2.1 (by decide)⟩

/-- C11. Select toggles and is an involution: with a valid cursor on `mon`,
Update on the Select key returns a model that differs from the given one only
in the `Selected` flag of the cursor's monitor, which is flipped, and Select
on that model returns the original model. -/
theorem select_toggles (m : Model) (s : String) (mon : Monitor)
    (hidx : indexMonitor m.monitors m.activeIndex = some mon)
    (hk : keyCase m.keys s = .Select) :
    ∃ m1 cmd1, Update m (.KeyMsg s) = some (m1, cmd1) ∧
      indexMonitor m1.monitors m1.activeIndex = some { mon with Selected := !mon.Selected } ∧
      m1.activeIndex = m.activeIndex ∧
      m1.monitors.length = m.monitors.length ∧
      (∀ j : Nat, (j : Int) ≠ m.activeIndex → m1.monitors.get? j = m.monitors.get? j) ∧
      (m1.keys = m.keys ∧ m1.quitting = m.quitting ∧ m1.windowWidth = m.windowWidth ∧
        m1.windowHeight = m.windowHeight ∧ m1.helpWidth = m.helpWidth) ∧
      ∃ cmd2, Update m1 (.KeyMsg s) = some (m, cmd2) := by
  have hv : validIndex m := (indexMonitor_some_iff.mp hidx).1
  have h1 : Update m (.KeyMsg s) =
      some (setActive m { mon with Selected := !mon.Selected }, []) := by
    simp only [Update, hk, updateKey, hidx]
  have hidx1 := indexMonitor_setActive m { mon with Selected := !mon.Selected } hv
  refine ⟨_, _, h1, hidx1, rfl, by simp, ?_, ⟨rfl, rfl, rfl, rfl, rfl⟩, [], ?_⟩
  · intro j hj
    have hne : m.activeIndex.toNat ≠ j := by have := hv.1; omega
    rw [setActive_monitors, List.get?_eq_getElem?, List.getElem?_set_ne hne,
      List.get?_eq_getElem?]
  · have hk1 : keyCase (setActive m { mon with Selected := !mon.Selected }).keys s = .Select := hk
    simp only [Update, hk1, updateKey, hidx1, setActive_setActive, Bool.not_not]
    rw [setActive_self m _ hidx]

/-- Witness of C11: Select on the first monitor of the default layout. -/
theorem select_toggles_witness :
    indexMonitor (initialModel .invocationError).monitors
        (initialModel .invocationError).activeIndex = some firstMonitor ∧
    keyCase (initialModel .invocationError).keys "enter" = .Select ∧
    ∃ m1 cmd1, Update (initialModel .invocationError) (.KeyMsg "enter") = some (m1, cmd1) ∧
      indexMonitor m1.monitors m1.activeIndex =
        some { firstMonitor with Selected := !firstMonitor.Selected } ∧
      m1.activeIndex = (initialModel .invocationError).activeIndex ∧
      m1.monitors.length = (initialModel .invocationError).monitors.length ∧
      (∀ j : Nat, (j : Int) ≠ (initialModel .invocationError).activeIndex →
        m1.monitors.get? j = (initialModel .invocationError).monitors.get? j) ∧
      (m1.keys = (initialModel .invocationError).keys ∧
        m1.quitting = (initialModel .invocationError).quitting ∧
        m1.windowWidth = (initialModel .invocationError).windowWidth ∧
        m1.windowHeight = (initialModel .invocationError).windowHeight ∧
        m1.helpWidth = (initialModel .invocationError).helpWidth) ∧
      ∃ cmd2, Update m1 (.KeyMsg "enter") = some (initialModel .invocationError, cmd2) :=
  ⟨by decide, by decide,
    select_toggles (initialModel .invocationError) "enter" firstMonitor (by decide)
      (by decide)⟩

/-- C12. Apply, Copy and window resizes leave the editing state alone: for
every model, Update on the Apply key or the Copy key returns the model itself
(same layout, cursor and viewport), and Update on `WindowSizeMsg w h` returns
a model with the same layout and cursor whose viewport is `w`, `h`. -/
theorem apply_copy_resize_frame (m : Model) :
    (∀ s, keyCase m.keys s = .Apply → ∃ cmd, Update m (.KeyMsg s) = some (m, cmd)) ∧
    (∀ s, keyCase m.keys s = .Copy → ∃ cmd, Update m (.KeyMsg s) = some (m, cmd)) ∧
    (∀ w h : Int, ∃ m' cmd, Update m (.WindowSizeMsg w h) = some (m', cmd) ∧
      m'.monitors = m.monitors ∧ m'.activeIndex = m.activeIndex ∧
      m'.windowWidth = w ∧ m'.windowHeight = h) := by
  refine ⟨?_, ?_, ?_⟩
  · intro s hk
    exact ⟨_, by simp only [Update, hk]; rfl⟩
  · intro s hk
    exact ⟨_, by simp only [Update, hk]; rfl⟩
  · intro w h
    exact ⟨_, _, rfl, rfl, rfl, rfl, rfl⟩

/-- C16. Startup fallback: the layout `getMonitors` returns is never empty; it
is the default layout (`eDP-1` 1920x1080 at (0,0), `DP-2` 1920x1080 at
(1920,0), `DP-4` 2560x1440 at (3840,0), none selected) when the query fails,
when its output does not parse and when the parsed list is empty; otherwise
it is the parsed records in order, name, position and size copied and
`Selected = false`. -/
theorem startup_fallback (hyprMonitors : List HyprMonitor) :
    (∀ q, getMonitors q ≠ []) ∧
    getMonitors .invocationError = defaultMonitors ∧
    getMonitors .unparsable = defaultMonitors ∧
    getMonitors (.parsed []) = defaultMonitors ∧
    defaultMonitors =
      [ { Name := "eDP-1", X := 0, Y := 0, Width := 1920, Height := 1080, Selected := false },
        { Name := "DP-2", X := 1920, Y := 0, Width := 1920, Height := 1080, Selected := false },
        { Name := "DP-4", X := 3840, Y := 0, Width := 2560, Height := 1440, Selected := false } ] ∧
    (hyprMonitors ≠ [] →
      getMonitors (.parsed hyprMonitors) = hyprMonitors.map convertMonitor) ∧
    (∀ hm : HyprMonitor, convertMonitor hm =
      { Name := hm.Name, X := hm.X, Y := hm.Y, Width := hm.Width, Height := hm.Height,
        Selected := false }) := by
  refine ⟨?_, rfl, rfl, rfl, rfl, ?_, fun _ => rfl⟩
  · intro q hq
    have := getMonitors_length_pos q
    rw [hq] at this
    simp at this
  · intro hne
    have hconv : convertMonitors hyprMonitors = hyprMonitors.map convertMonitor := by
      unfold convertMonitors
      rw [foldl_append_singleton]
      rfl
    have hlen : (convertMonitors hyprMonitors).length ≠ 0 := by
      rw [hconv, List.length_map]
      exact fun h => hne (List.length_eq_zero.mp h)
    rw [hconv] at hlen
    simp only [getMonitors, hconv]
    rw [if_neg hlen]

/-- Two `float64` that are numbers compare one way or the other. -/
theorem F64.ge_of_not_lt (a b : F64) (ha : a ≠ F64.nan) (hb : b ≠ F64.nan)
    (h : F64.lt a b = false) : F64.ge a b = true := by
  cases a with
  | nan => exact absurd rfl ha
  | inf n1 =>
    cases b with
    | nan => exact absurd rfl hb
    | inf n2 => cases n1 <;> cases n2 <;> simp_all [F64.lt, F64.ge]
    | fin n2 m2 e2 => cases n1 <;> simp_all [F64.lt, F64.ge]
  | fin n1 m1 e1 =>
    cases b with
    | nan => exact absurd rfl hb
    | inf n2 => cases n2 <;> simp_all [F64.lt, F64.ge]
    | fin n2 m2 e2 =>
      simp only [F64.lt, decide_eq_false_iff_not, not_lt] at h
      simp only [F64.ge, decide_eq_true_eq]
      exact h

/-- C13. The floor of `calculateScale` lets not-a-number through: the value
returned is always not-a-number or at least 0.1, and for a layout whose
monitors all end at or left of the origin (`maxX = 0`) drawn in a viewport of
width 0 (the viewport before the first resize message), it is not-a-number
(`0/0`), which is not at least 0.1; the same holds for the empty layout. -/
theorem scale_floor_lets_nan_through (monitors : List Monitor) (windowWidth windowHeight : Int) :
    (calculateScale monitors windowWidth windowHeight = F64.nan ∨
      F64.ge (calculateScale monitors windowWidth windowHeight) F64.oneTenth = true) ∧
    (scaleExtent leftLayout).1 = 0 ∧
    calculateScale leftLayout 0 0 = F64.nan ∧
    calculateScale [] 0 0 = F64.nan ∧
    F64.ge F64.nan F64.oneTenth = false := by
  refine ⟨?_, by decide, by decide, by decide, by decide⟩
  unfold calculateScale
  simp only []
  split_ifs with h1 h2 h2
  · exact Or.inr (by decide)
  · by_cases hn : F64.mul (F64.div (F64.ofInt windowHeight) (F64.ofInt (scaleExtent monitors).2))
        F64.threeTenths = F64.nan
    · exact Or.inl hn
    · exact Or.inr (F64.ge_of_not_lt _ _ hn (by decide) (by simpa using h2))
  · exact Or.inr (by decide)
  · by_cases hn : F64.mul (F64.div (F64.ofInt windowWidth) (F64.ofInt (scaleExtent monitors).1))
        F64.half = F64.nan
    · exact Or.inl hn
    · exact Or.inr (F64.ge_of_not_lt _ _ hn (by decide) (by simpa using h2))

/-- A running minimum is below its start and every item, and is one of them. -/
theorem foldl_min_spec {α : Type} (f : α → Int) (l : List α) (a : Int) :
    l.foldl (fun acc x => if f x < acc then f x else acc) a ≤ a ∧
    (∀ x ∈ l, l.foldl (fun acc x => if f x < acc then f x else acc) a ≤ f x) ∧
    (l.foldl (fun acc x => if f x < acc then f x else acc) a = a ∨
      ∃ x ∈ l, l.foldl (fun acc x => if f x < acc then f x else acc) a = f x) := by
  induction l generalizing a with
  | nil => exact ⟨le_refl _, fun x hx => absurd hx (List.not_mem_nil x), Or.inl rfl⟩
  | cons y ys ih =>
    obtain ⟨h1, h2, h3⟩ := ih (if f y < a then f y else a)
    rw [List.foldl_cons]
    have hle : (if f y < a then f y else a) ≤ a ∧ (if f y < a then f y else a) ≤ f y := by
      split_ifs <;> constructor <;> omega
    refine ⟨le_trans h1 hle.1, ?_, ?_⟩
    · intro x hx
      rcases List.mem_cons.mp hx with rfl | hx
      · exact le_trans h1 hle.2
      · exact h2 x hx
    · rcases h3 with h3 | ⟨x, hx, h3⟩
      · by_cases hc : f y < a
        · rw [if_pos hc] at h3
          exact Or.inr ⟨y, List.mem_cons_self _ _, by rw [if_pos hc]; exact h3⟩
        · rw [if_neg hc] at h3
          exact Or.inl (by rw [if_neg hc]; exact h3)
      · exact Or.inr ⟨x, List.mem_cons_of_mem _ hx, h3⟩

/-- A running maximum is above its start and every item, and is one of them. -/
theorem foldl_max_spec {α : Type} (f : α → Int) (l : List α) (a : Int) :
    a ≤ l.foldl (fun acc x => if f x > acc then f x else acc) a ∧
    (∀ x ∈ l, f x ≤ l.foldl (fun acc x => if f x > acc then f x else acc) a) ∧
    (l.foldl (fun acc x => if f x > acc then f x else acc) a = a ∨
      ∃ x ∈ l, l.foldl (fun acc x => if f x > acc then f x else acc) a = f x) := by
  induction l generalizing a with
  | nil => exact ⟨le_refl _, fun x hx => absurd hx (List.not_mem_nil x), Or.inl rfl⟩
  | cons y ys ih =>
    obtain ⟨h1, h2, h3⟩ := ih (if f y > a then f y else a)
    rw [List.foldl_cons]
    have hle : a ≤ (if f y > a then f y else a) ∧ f y ≤ (if f y > a then f y else a) := by
      split_ifs <;> constructor <;> omega
    refine ⟨le_trans hle.1 h1, ?_, ?_⟩
    · intro x hx
      rcases List.mem_cons.mp hx with rfl | hx
      · exact le_trans hle.2 h1
      · exact h2 x hx
    · rcases h3 with h3 | ⟨x, hx, h3⟩
      · by_cases hc : f y > a
        · rw [if_pos hc] at h3
          exact Or.inr ⟨y, List.mem_cons_self _ _, by rw [if_pos hc]; exact h3⟩
        · rw [if_neg hc] at h3
          exact Or.inl (by rw [if_neg hc]; exact h3)
      · exact Or.inr ⟨x, List.mem_cons_of_mem _ hx, h3⟩

/-- The four boundaries are four independent running extrema. -/
theorem foldl_boundsStep (l : List Monitor) (b : Bounds) :
    (l.foldl boundsStep b).minX =
      l.foldl (fun acc mon => if mon.X < acc then mon.X else acc) b.minX ∧
    (l.foldl boundsStep b).minY =
      l.foldl (fun acc mon => if mon.Y < acc then mon.Y else acc) b.minY ∧
    (l.foldl boundsStep b).maxX =
      l.foldl (fun acc mon =>
        if wrapInt (mon.X + mon.Width) > acc then wrapInt (mon.X + mon.Width) else acc) b.maxX ∧
    (l.foldl boundsStep b).maxY =
      l.foldl (fun acc mon =>
        if wrapInt (mon.Y + mon.Height) > acc then wrapInt (mon.Y + mon.Height) else acc)
        b.maxY := by
  induction l generalizing b with
  | nil => simp
  | cons y ys ih =>
    simp only [List.foldl_cons]
    obtain ⟨h1, h2, h3, h4⟩ := ih (boundsStep b y)
    rw [h1, h2, h3, h4]
    refine ⟨?_, ?_, ?_, ?_⟩ <;> congr 1 <;> simp only [boundsStep] <;> split_ifs <;> rfl

/-- The boundaries of the layout: extrema over the monitors and the origin. -/
theorem layoutBounds_spec (monitors : List Monitor) :
    ((layoutBounds monitors).minX ≤ 0 ∧
      (∀ mon ∈ monitors, (layoutBounds monitors).minX ≤ mon.X) ∧
      ((layoutBounds monitors).minX = 0 ∨
        ∃ mon ∈ monitors, (layoutBounds monitors).minX = mon.X)) ∧
    ((layoutBounds monitors).minY ≤ 0 ∧
      (∀ mon ∈ monitors, (layoutBounds monitors).minY ≤ mon.Y) ∧
      ((layoutBounds monitors).minY = 0 ∨
        ∃ mon ∈ monitors, (layoutBounds monitors).minY = mon.Y)) ∧
    (0 ≤ (layoutBounds monitors).maxX ∧
      (∀ mon ∈ monitors, wrapInt (mon.X + mon.Width) ≤ (layoutBounds monitors).maxX) ∧
      ((layoutBounds monitors).maxX = 0 ∨
        ∃ mon ∈ monitors, (layoutBounds monitors).maxX = wrapInt (mon.X + mon.Width))) ∧
    (0 ≤ (layoutBounds monitors).maxY ∧
      (∀ mon ∈ monitors, wrapInt (mon.Y + mon.Height) ≤ (layoutBounds monitors).maxY) ∧
      ((layoutBounds monitors).maxY = 0 ∨
        ∃ mon ∈ monitors, (layoutBounds monitors).maxY = wrapInt (mon.Y + mon.Height))) := by
  obtain ⟨h1, h2, h3, h4⟩ := foldl_boundsStep monitors { minX := 0, minY := 0, maxX := 0, maxY := 0 }
  unfold layoutBounds
  rw [h1, h2, h3, h4]
  exact ⟨foldl_min_spec (fun mon : Monitor => mon.X) monitors 0,
    foldl_min_spec (fun mon : Monitor => mon.Y) monitors 0,
    foldl_max_spec (fun mon : Monitor => wrapInt (mon.X + mon.Width)) monitors 0,
    foldl_max_spec (fun mon : Monitor => wrapInt (mon.Y + mon.Height)) monitors 0⟩

/-- The conversion `int(f)` is the truncation wherever Go defines it. -/
theorem F64.toInt_of_toInt? (impl : F64 → Int) (f : F64) (v : Int)
    (h : F64.toInt? f = some v) : F64.toInt impl f = v := by
  simp only [F64.toInt, h]

/-! ## The rasterizer -/

/-- Packing keeps the sign. -/
theorem F64.isNeg_pack (neg : Bool) (m : Nat) (e : Int) :
    F64.isNeg (F64.pack neg m e) = neg := by
  unfold F64.pack
  split_ifs <;> rfl

/-- Rounding keeps the sign. -/
theorem F64.isNeg_round (neg : Bool) (m : Nat) (e : Int) (sticky : Bool) :
    F64.isNeg (F64.round neg m e sticky) = neg := by
  unfold F64.round
  simp only []
  split_ifs <;> exact F64.isNeg_pack _ _ _

/-- The conversion of a non-negative `int` is not negative. -/
theorem F64.isNeg_ofInt {v : Int} (h : 0 ≤ v) : F64.isNeg (F64.ofInt v) = false := by
  unfold F64.ofInt
  rw [F64.isNeg_round]
  simpa using h

/-- A product of two `float64` that are not negative is not negative. -/
theorem F64.isNeg_mul {a b : F64} (ha : F64.isNeg a = false) (hb : F64.isNeg b = false) :
    F64.isNeg (F64.mul a b) = false := by
  cases a <;> cases b <;> simp only [F64.isNeg] at ha hb <;> subst_vars <;>
    simp only [F64.mul] <;> first | rfl | (split_ifs <;> rfl) | exact F64.isNeg_round _ _ _ _

/-- A quotient of two `float64` that are not negative is not negative. -/
theorem F64.isNeg_div {a b : F64} (ha : F64.isNeg a = false) (hb : F64.isNeg b = false) :
    F64.isNeg (F64.div a b) = false := by
  cases a <;> cases b <;> simp only [F64.isNeg] at ha hb <;> subst_vars <;>
    simp only [F64.div] <;>
    first | rfl | (split_ifs <;> first | rfl | exact F64.isNeg_round _ _ _ _)

/-- The truncation of a `float64` that is not negative is not negative. -/
theorem F64.toInt?_nonneg {f : F64} {v : Int} (hf : F64.isNeg f = false)
    (h : F64.toInt? f = some v) : 0 ≤ v := by
  cases f with
  | nan => simp [F64.toInt?] at h
  | inf n => simp [F64.toInt?] at h
  | fin n m e =>
    simp only [F64.isNeg] at hf
    subst hf
    simp only [F64.toInt?] at h
    split_ifs at h
    cases h
    simp only [F64.trunc, Bool.false_eq_true, if_false]
    split_ifs
    · positivity
    · exact Int.natCast_nonneg _

/-- A small cell count of a non-negative length at a non-negative scale: the
value of `cells` lies in `[0, 2^60]` whatever the implementation. -/
theorem cells_of_smallCells (impl : F64 → Int) {scale d : F64} {v : Int}
    (hs : F64.isNeg scale = false) (hd : F64.isNeg d = false) (hv : 0 ≤ v)
    (h : smallCells scale v d = true) :
    0 ≤ cells impl scale v d ∧ cells impl scale v d ≤ 2 ^ 60 := by
  unfold smallCells at h
  cases hc : F64.toInt? (F64.div (F64.mul (F64.ofInt v) scale) d) with
  | none => rw [hc] at h; cases h
  | some c =>
    rw [hc] at h
    have h1 : cells impl scale v d = c := F64.toInt_of_toInt? impl _ _ hc
    rw [h1]
    exact ⟨F64.toInt?_nonneg (F64.isNeg_div (F64.isNeg_mul (F64.isNeg_ofInt hv) hs) hd) hc,
      by simpa using h⟩

/-- Values between 0 and `2^62` are values of `int`. -/
theorem isInt_of_small {v : Int} (h0 : 0 ≤ v) (h1 : v ≤ 2 ^ 62) : isInt v := by
  unfold isInt minInt maxInt intBits
  norm_num at h1 ⊢
  omega

/-- The values a counting loop takes. -/
theorem mem_intRange {lo hi v : Int} : v ∈ intRange lo hi ↔ lo ≤ v ∧ v < hi := by
  unfold intRange
  rw [List.mem_map]
  constructor
  · rintro ⟨k, hk, rfl⟩
    have hk' := List.mem_range.mp hk
    constructor <;> omega
  · rintro ⟨h1, h2⟩
    exact ⟨(v - lo).toNat, List.mem_range.mpr (by omega), by omega⟩

/-- The cells the fill loops assign are those of the rectangle. -/
theorem mem_fillWrites {r : Rect} {gw gh : Int} {char : String} {w : CellWrite} :
    w ∈ fillWrites r gw gh char ↔ inRect r gw gh w.row w.col ∧ w.cell = char := by
  unfold fillWrites inRect
  simp only [List.mem_flatMap, List.mem_map, mem_intRange, lt_min_iff]
  constructor
  · rintro ⟨y, hy, x, hx, rfl⟩
    exact ⟨⟨⟨hy.1, hy.2.1, hy.2.2⟩, ⟨hx.1, hx.2.1, hx.2.2⟩⟩, rfl⟩
  · rintro ⟨⟨⟨h1, h2, h3⟩, ⟨h4, h5, h6⟩⟩, h7⟩
    refine ⟨w.row, ⟨h1, h2, h3⟩, w.col, ⟨h4, h5, h6⟩, ?_⟩
    cases w
    simp only [CellWrite.mk.injEq, true_and]
    exact h7.symm

/-- The fill loops stay inside the grid when the rectangle starts inside. -/
theorem fillWrites_valid {r : Rect} {gw gh : Int} {char : String}
    (hx : 0 ≤ r.startX) (hy : 0 ≤ r.startY) :
    ∀ w ∈ fillWrites r gw gh char, validWrite gw gh w := by
  intro w hw
  obtain ⟨⟨⟨h1, -, h3⟩, ⟨h4, -, h6⟩⟩, -⟩ := mem_fillWrites.mp hw
  exact ⟨⟨by omega, h3⟩, ⟨by omega, h6⟩⟩

/-- The length in bytes is the sum of the sizes of the characters. -/
theorem utf8ByteSize_go_eq (cs : List Char) :
    String.utf8ByteSize.go cs = (cs.map Char.utf8Size).sum := by
  induction cs with
  | nil => rfl
  | cons c cs ih => simp only [String.utf8ByteSize.go, ih, List.map_cons, List.sum_cons]; omega

/-- Every character of a name starts at an offset after the start and ends
before the end of the name. -/
theorem mem_runeOffsets {cs : List Char} {off i : Nat} {c : Char}
    (h : (i, c) ∈ runeOffsets cs off) :
    off ≤ i ∧ i + 1 ≤ off + (cs.map Char.utf8Size).sum := by
  induction cs generalizing off with
  | nil => simp [runeOffsets] at h
  | cons d ds ih =>
    simp only [runeOffsets, List.mem_cons, Prod.mk.injEq] at h
    have hd := Char.utf8Size_pos d
    rcases h with ⟨rfl, rfl⟩ | h
    · simp only [List.map_cons, List.sum_cons]
      omega
    · obtain ⟨h1, h2⟩ := ih h
      simp only [List.map_cons, List.sum_cons]
      omega

/-- The offsets of the characters of a name lie below its length in bytes. -/
theorem runeOffsets_lt {name : String} {i : Nat} {c : Char}
    (h : (i, c) ∈ runeOffsets name.toList 0) : i + 1 ≤ name.utf8ByteSize := by
  have := (mem_runeOffsets h).2
  have hsz : name.utf8ByteSize = (name.toList.map Char.utf8Size).sum := by
    cases name
    exact utf8ByteSize_go_eq _
  omega

/-- The name loop stays inside the grid when the rectangle starts inside and
no sum leaves the range of `int`. -/
theorem nameWrites_valid {r : Rect} {gw gh : Int} {name : String}
    (hx : 0 ≤ r.startX ∧ r.startX ≤ 2 ^ 60)
    (hy : 0 ≤ r.startY + r.endY ∧ r.startY + r.endY ≤ 2 ^ 62)
    (hlen : (name.utf8ByteSize : Int) ≤ 2 ^ 60) :
    ∀ w ∈ nameWrites r gw gh name, validWrite gw gh w := by
  intro w hw
  have hnx : wrapInt (r.startX + 1) = r.startX + 1 :=
    wrapInt_of_isInt (isInt_of_small (by omega) (by have := hx.2; norm_num at this ⊢; omega))
  have hny : wrapInt (r.startY + r.endY) = r.startY + r.endY :=
    wrapInt_of_isInt (isInt_of_small hy.1 hy.2)
  unfold nameWrites at hw
  simp only [hnx, hny] at hw
  split_ifs at hw with hcond
  · obtain ⟨⟨i, c⟩, hic, hsome⟩ := List.mem_filterMap.mp hw
    have hi := runeOffsets_lt hic
    have hcol : wrapInt (r.startX + 1 + (i : Int)) = r.startX + 1 + (i : Int) :=
      wrapInt_of_isInt (isInt_of_small (by omega)
        (by have := hx.2; norm_num at this hlen ⊢; omega))
    split_ifs at hsome with hc2
    rw [hcol] at hc2 hsome
    cases hsome
    refine ⟨⟨Int.tdiv_nonneg hy.1 (by decide), hcond.2.1⟩, ⟨?_, hc2.2⟩⟩
    show 0 ≤ r.startX + 1 + (i : Int)
    omega
  · cases hw

/-- The grid is at least 20 wide and its width is an `int`. -/
theorem gridWidth_bounds (impl : F64 → Int) (monitors : List Monitor) (scale : F64) :
    20 ≤ gridWidth impl monitors scale ∧ isInt (gridWidth impl monitors scale) := by
  unfold gridWidth
  simp only []
  split_ifs with h
  · exact ⟨le_refl _, by decide⟩
  · exact ⟨not_lt.mp h, isInt_wrapInt _⟩

/-- The grid is at least 10 high and its height is an `int`. -/
theorem gridHeight_bounds (impl : F64 → Int) (monitors : List Monitor) (scale : F64) :
    10 ≤ gridHeight impl monitors scale ∧ isInt (gridHeight impl monitors scale) := by
  unfold gridHeight
  simp only []
  split_ifs with h
  · exact ⟨le_refl _, by decide⟩
  · exact ⟨not_lt.mp h, isInt_wrapInt _⟩

/-- Under `rasterInRange` the rectangle of a monitor starts at non-negative
cells and its label row is computed without wrap-around. -/
theorem monitorRect_inRange (impl : F64 → Int) (monitors : List Monitor) (scale : F64)
    (mon : Monitor) (gw gh : Int) (hmem : mon ∈ monitors) (hs : F64.isNeg scale = false)
    (hH : 0 ≤ mon.Height) (hr : rasterInRange (layoutBounds monitors) scale mon)
    (hgh : 10 ≤ gh) (hghI : isInt gh) :
    (0 ≤ (monitorRect impl (layoutBounds monitors) scale gw gh mon).startX ∧
      (monitorRect impl (layoutBounds monitors) scale gw gh mon).startX ≤ 2 ^ 60) ∧
    (0 ≤ (monitorRect impl (layoutBounds monitors) scale gw gh mon).startY ∧
      (monitorRect impl (layoutBounds monitors) scale gw gh mon).startY ≤ 2 ^ 60) ∧
    (0 ≤ (monitorRect impl (layoutBounds monitors) scale gw gh mon).startY +
        (monitorRect impl (layoutBounds monitors) scale gw gh mon).endY ∧
      (monitorRect impl (layoutBounds monitors) scale gw gh mon).startY +
        (monitorRect impl (layoutBounds monitors) scale gw gh mon).endY ≤ 2 ^ 62) := by
  obtain ⟨hx, hy, hsx, hsy, hsh, -⟩ := hr
  have hminX := (layoutBounds_spec monitors).1.2.1 mon hmem
  have hminY := (layoutBounds_spec monitors).2.1.2.1 mon hmem
  have hcx := cells_of_smallCells impl hs (d := F64.twenty) rfl
    (by omega : 0 ≤ mon.X - (layoutBounds monitors).minX) hsx
  have hcy := cells_of_smallCells impl hs (d := F64.forty) rfl
    (by omega : 0 ≤ mon.Y - (layoutBounds monitors).minY) hsy
  have hch := cells_of_smallCells impl hs (d := F64.forty) rfl hH hsh
  have hgh1 : wrapInt (gh - 1) = gh - 1 := by
    apply wrapInt_of_isInt
    unfold isInt minInt maxInt intBits at hghI ⊢
    norm_num at hghI ⊢
    omega
  simp only [monitorRect, wrapInt_of_isInt hx, wrapInt_of_isInt hy]
  generalize cells impl scale (mon.X - (layoutBounds monitors).minX) F64.twenty = sx at hcx ⊢
  generalize cells impl scale (mon.Y - (layoutBounds monitors).minY) F64.forty = sy at hcy ⊢
  generalize cells impl scale mon.Height F64.forty = hc at hch ⊢
  have hraw : wrapInt (sy + hc) = sy + hc := by
    apply wrapInt_of_isInt
    apply isInt_of_small (by omega)
    have h1 := hcy.2
    have h2 := hch.2
    norm_num at h1 h2 ⊢
    omega
  rw [hraw, hgh1]
  have h1 := hcy.2
  have h2 := hch.2
  refine ⟨hcx, hcy, ?_⟩
  split_ifs with hclip
  · norm_num at h1 h2 ⊢
    constructor <;> omega
  · norm_num at h1 h2 ⊢
    constructor <;> omega

/-- Under `rasterInRange` every assignment of a monitor targets a cell of the
grid. -/
theorem monitorWrites_valid (impl : F64 → Int) (monitors : List Monitor) (scale : F64)
    (activeIndex : Int) (idx : Nat) (mon : Monitor) (gw gh : Int) (hmem : mon ∈ monitors)
    (hs : F64.isNeg scale = false) (hH : 0 ≤ mon.Height)
    (hr : rasterInRange (layoutBounds monitors) scale mon)
    (hgh : 10 ≤ gh) (hghI : isInt gh) :
    ∀ w ∈ monitorWrites impl (layoutBounds monitors) scale gw gh activeIndex idx mon,
      validWrite gw gh w := by
  obtain ⟨hx, hy, hsum⟩ := monitorRect_inRange impl monitors scale mon gw gh hmem hs hH hr hgh hghI
  intro w hw
  unfold monitorWrites at hw
  rcases List.mem_append.mp hw with hw | hw
  · exact fillWrites_valid hx.1 hy.1 w hw
  · exact nameWrites_valid hx hsum hr.2.2.2.2.2 w hw

/-- A finite scale greater than zero is not negative. -/
theorem F64.isNeg_of_finitePos {f : F64} (h : F64.finitePos f = true) : F64.isNeg f = false := by
  cases f with
  | nan => cases h
  | inf n => cases h
  | fin n m e =>
    cases n
    · rfl
    · cases h

/-- Under `rasterInRange` every assignment of `renderMonitors` targets a cell of
the grid. -/
theorem allWrites_valid (impl : F64 → Int) (monitors : List Monitor) (activeIndex : Int)
    (scale : F64) (hs : F64.isNeg scale = false) (hH : ∀ mon ∈ monitors, 0 ≤ mon.Height)
    (hr : ∀ mon ∈ monitors, rasterInRange (layoutBounds monitors) scale mon) :
    ∀ w ∈ allWrites impl monitors activeIndex scale,
      validWrite (gridWidth impl monitors scale) (gridHeight impl monitors scale) w := by
  intro w hw
  unfold allWrites at hw
  obtain ⟨⟨idx, mon⟩, him, hw⟩ := List.mem_flatMap.mp hw
  have hmem : mon ∈ monitors := by
    have := List.mem_enum him
    rw [this.2]
    exact List.getElem_mem _
  exact monitorWrites_valid impl monitors scale activeIndex idx mon _ _ hmem hs (hH mon hmem)
    (hr mon hmem) (gridHeight_bounds impl monitors scale).1
    (gridHeight_bounds impl monitors scale).2 w hw

/-- The empty grid has the dimensions asked for. -/
theorem blankGrid_dims (gw gh : Int) : gridDims (blankGrid gw gh) gw gh := by
  unfold gridDims blankGrid
  refine ⟨List.length_replicate _ _, ?_⟩
  intro row hrow
  rw [List.eq_of_mem_replicate hrow, List.length_replicate]

/-- Every cell of the empty grid is one blank. -/
theorem blankGrid_unitCells (gw gh : Int) : unitCells (blankGrid gw gh) := by
  intro row hrow c hc
  unfold blankGrid at hrow
  rw [List.eq_of_mem_replicate hrow] at hc
  rw [List.eq_of_mem_replicate hc]
  decide

/-- What a successful assignment is. -/
theorem setCell_eq_some {grid grid' : Grid} {w : CellWrite} (h : setCell grid w = some grid') :
    ∃ line, grid.get? w.row.toNat = some line ∧
      (0 ≤ w.row ∧ w.row < grid.length) ∧ (0 ≤ w.col ∧ w.col < line.length) ∧
      grid' = grid.set w.row.toNat (line.set w.col.toNat w.cell) := by
  unfold setCell at h
  split_ifs at h with hrow
  cases hline : grid.get? w.row.toNat with
  | none => rw [hline] at h; cases h
  | some line =>
    rw [hline] at h
    simp only [] at h
    split_ifs at h with hcol
    cases h
    exact ⟨line, rfl, hrow, hcol, rfl⟩

/-- An assignment keeps the dimensions of the grid. -/
theorem setCell_dims {grid grid' : Grid} {w : CellWrite} {gw gh : Int}
    (h : setCell grid w = some grid') (hd : gridDims grid gw gh) : gridDims grid' gw gh := by
  obtain ⟨line, hline, -, -, rfl⟩ := setCell_eq_some h
  refine ⟨by rw [List.length_set]; exact hd.1, ?_⟩
  intro row hrow
  rcases List.mem_or_eq_of_mem_set hrow with hrow | rfl
  · exact hd.2 row hrow
  · rw [List.length_set]
    exact hd.2 line (List.get?_mem hline)

/-- An assignment of one character keeps every cell at one character. -/
theorem setCell_unitCells {grid grid' : Grid} {w : CellWrite}
    (h : setCell grid w = some grid') (hu : unitCells grid) (hw : w.cell.length = 1) :
    unitCells grid' := by
  obtain ⟨line, hline, -, -, rfl⟩ := setCell_eq_some h
  intro row hrow c hc
  rcases List.mem_or_eq_of_mem_set hrow with hrow | rfl
  · exact hu row hrow c hc
  · rcases List.mem_or_eq_of_mem_set hc with hc | rfl
    · exact hu line (List.get?_mem hline) c hc
    · exact hw

/-- An assignment inside the grid succeeds. -/
theorem setCell_of_valid {grid : Grid} {w : CellWrite} {gw gh : Int}
    (hd : gridDims grid gw gh) (hw : validWrite gw gh w) : ∃ grid', setCell grid w = some grid' := by
  obtain ⟨⟨hr0, hr1⟩, ⟨hc0, hc1⟩⟩ := hw
  have hrow : w.row.toNat < grid.length := by rw [hd.1]; omega
  have hline : grid.get? w.row.toNat = some (grid.get ⟨w.row.toNat, hrow⟩) := List.get?_eq_get hrow
  have hlen : (grid.get ⟨w.row.toNat, hrow⟩).length = gw.toNat := hd.2 _ (List.get_mem _ _ _)
  refine ⟨grid.set w.row.toNat ((grid.get ⟨w.row.toNat, hrow⟩).set w.col.toNat w.cell), ?_⟩
  unfold setCell
  rw [if_pos ⟨hr0, by omega⟩, hline]
  simp only []
  rw [if_pos ⟨hc0, by rw [hlen]; omega⟩]

/-- A sequence of assignments inside the grid succeeds. -/
theorem applyWrites_of_valid {gw gh : Int} (ws : List CellWrite) :
    ∀ grid : Grid, gridDims grid gw gh → (∀ w ∈ ws, validWrite gw gh w) →
      ∃ grid', applyWrites grid ws = some grid' := by
  induction ws with
  | nil => intro grid _ _; exact ⟨grid, rfl⟩
  | cons w ws ih =>
    intro grid hd hv
    obtain ⟨g1, h1⟩ := setCell_of_valid hd (hv w (List.mem_cons_self _ _))
    obtain ⟨g2, h2⟩ := ih g1 (setCell_dims h1 hd) (fun v hv' => hv v (List.mem_cons_of_mem _ hv'))
    exact ⟨g2, by simp only [applyWrites, h1, h2]⟩

/-- A successful sequence of assignments keeps the dimensions of the grid. -/
theorem applyWrites_dims {gw gh : Int} (ws : List CellWrite) :
    ∀ grid grid' : Grid, applyWrites grid ws = some grid' → gridDims grid gw gh →
      gridDims grid' gw gh := by
  induction ws with
  | nil =>
    intro grid grid' h hd
    simp only [applyWrites, Option.some.injEq] at h
    subst h
    exact hd
  | cons w ws ih =>
    intro grid grid' h hd
    simp only [applyWrites] at h
    cases h1 : setCell grid w with
    | none => rw [h1] at h; cases h
    | some g1 =>
      rw [h1] at h
      exact ih g1 grid' h (setCell_dims h1 hd)

/-- A successful sequence of assignments of one character each keeps the
dimensions of the grid and one character in every cell. -/
theorem applyWrites_shape {gw gh : Int} (ws : List CellWrite) :
    ∀ grid grid' : Grid, applyWrites grid ws = some grid' → gridDims grid gw gh →
      unitCells grid → (∀ w ∈ ws, w.cell.length = 1) →
      gridDims grid' gw gh ∧ unitCells grid' := by
  induction ws with
  | nil =>
    intro grid grid' h hd hu _
    simp only [applyWrites, Option.some.injEq] at h
    subst h
    exact ⟨hd, hu⟩
  | cons w ws ih =>
    intro grid grid' h hd hu hw
    simp only [applyWrites] at h
    cases h1 : setCell grid w with
    | none => rw [h1] at h; cases h
    | some g1 =>
      rw [h1] at h
      exact ih g1 grid' h (setCell_dims h1 hd)
        (setCell_unitCells h1 hu (hw w (List.mem_cons_self _ _)))
        (fun v hv => hw v (List.mem_cons_of_mem _ hv))

set_option maxRecDepth 100000 in
/-- C6. The command executed can differ from the command displayed: the
string `fullCmd` that the closure of `applyConfiguration` builds equals
`generateHyprlandCommand` of the layout the slice holds when the closure
runs, which is the displayed string only when no `Update` came in between;
on the default layout with the cursor on the selected `DP-2`, Apply prints
`DP-2` at `x = 1920`, and after a Right processed before the closure runs,
`bash` receives `DP-2` at `x = 1930`. -/
theorem executed_command_can_differ (m : Model) :
    applyConfigurationFullCmd m.monitors = generateHyprlandCommand m.monitors ∧
    (∀ s, keyCase m.keys s = .Apply →
      printedAt m (.KeyMsg s) =
        some ("Applying configuration:\n" ++ generateHyprlandCommand m.monitors) ∧
      executedAt m (.KeyMsg s) [] = some (generateHyprlandCommand m.monitors)) ∧
    keyCase movingModel.keys "a" = .Apply ∧
    printedAt movingModel (.KeyMsg "a") =
      some "Applying configuration:\nhyprctl keyword monitor 'eDP-1,highres,0,0,1' && hyprctl keyword monitor 'DP-2,highres,1920,0,1' && hyprctl keyword monitor 'DP-4,highres,3840,0,1'" ∧
    executedAt movingModel (.KeyMsg "a") [.KeyMsg "right"] =
      some "hyprctl keyword monitor 'eDP-1,highres,0,0,1' && hyprctl keyword monitor 'DP-2,highres,1930,0,1' && hyprctl keyword monitor 'DP-4,highres,3840,0,1'" := by
  refine ⟨rfl, ?_, by decide, by decide, by decide⟩
  intro s hk
  constructor
  · simp only [printedAt, Update, hk, updateKey, List.findSome?]
  · simp only [executedAt, Update, hk, updateKey, applyConfiguration, run]
    simp
    rfl

/-- What a completed loop of `renderMonitors` is: the grid was granted and
every assignment succeeded. -/
theorem renderGrid_eq_some {impl : F64 → Int} {alloc : Int → Int → Bool}
    {monitors : List Monitor} {activeIndex : Int} {scale : F64} {grid : Grid} :
    renderGrid impl alloc monitors activeIndex scale = some grid ↔
      (alloc (gridWidth impl monitors scale) (gridHeight impl monitors scale) = true ∧
        applyWrites (blankGrid (gridWidth impl monitors scale) (gridHeight impl monitors scale))
          (allWrites impl monitors activeIndex scale) = some grid) := by
  unfold renderGrid emptyGrid
  by_cases h : alloc (gridWidth impl monitors scale) (gridHeight impl monitors scale) = true
  · rw [if_pos h]
    exact ⟨fun hh => ⟨h, hh⟩, fun hh => hh.2⟩
  · rw [if_neg h]
    exact ⟨fun hh => (by cases hh), fun hh => absurd hh.1 h⟩

/-- Within the range of `int`, and the grid granted, the loop of
`renderMonitors` completes, on a grid of the dimensions computed. -/
theorem renderGrid_of_inRange (impl : F64 → Int) (alloc : Int → Int → Bool)
    (monitors : List Monitor) (activeIndex : Int) (scale : F64)
    (hsize : ∀ mon ∈ monitors, 0 < mon.Width ∧ 0 < mon.Height)
    (hscale : F64.finitePos scale = true)
    (hrange : ∀ mon ∈ monitors, rasterInRange (layoutBounds monitors) scale mon)
    (halloc : alloc (gridWidth impl monitors scale) (gridHeight impl monitors scale) = true) :
    ∃ grid, renderGrid impl alloc monitors activeIndex scale = some grid ∧
      gridDims grid (gridWidth impl monitors scale) (gridHeight impl monitors scale) := by
  have hv := allWrites_valid impl monitors activeIndex scale (F64.isNeg_of_finitePos hscale)
    (fun mon hm => le_of_lt (hsize mon hm).2) hrange
  obtain ⟨grid, hg⟩ := applyWrites_of_valid (allWrites impl monitors activeIndex scale)
    (blankGrid (gridWidth impl monitors scale) (gridHeight impl monitors scale))
    (blankGrid_dims _ _) hv
  exact ⟨grid, renderGrid_eq_some.mpr ⟨halloc, hg⟩,
    applyWrites_dims (allWrites impl monitors activeIndex scale) _ grid hg
      (blankGrid_dims (gridWidth impl monitors scale) (gridHeight impl monitors scale))⟩

/-- A completed loop leaves a grid of the dimensions computed. -/
theorem renderGrid_dims {impl : F64 → Int} {alloc : Int → Int → Bool}
    {monitors : List Monitor} {activeIndex : Int} {scale : F64} {grid : Grid}
    (h : renderGrid impl alloc monitors activeIndex scale = some grid) :
    gridDims grid (gridWidth impl monitors scale) (gridHeight impl monitors scale) :=
  applyWrites_dims (allWrites impl monitors activeIndex scale) _ grid
    (renderGrid_eq_some.mp h).2
    (blankGrid_dims (gridWidth impl monitors scale) (gridHeight impl monitors scale))

/-- After clipping, a rectangle ends left of the last column. -/
theorem monitorRect_endX_lt (impl : F64 → Int) (b : Bounds) (scale : F64) (gw gh : Int)
    (mon : Monitor) (hgw : 20 ≤ gw) (hgwI : isInt gw) :
    (monitorRect impl b scale gw gh mon).endX < gw := by
  have hgw1 : wrapInt (gw - 1) = gw - 1 := by
    apply wrapInt_of_isInt
    unfold isInt minInt maxInt intBits at hgwI ⊢
    norm_num at hgwI ⊢
    omega
  simp only [monitorRect, hgw1]
  split_ifs with h
  · omega
  · omega

/-- The assignments of a monitor of the layout are assignments of
`renderMonitors`. -/
theorem monitorWrites_subset (impl : F64 → Int) (monitors : List Monitor) (activeIndex : Int)
    (scale : F64) (j : Nat) (mon : Monitor) (hj : monitors.get? j = some mon) :
    ∀ w ∈ monitorWrites impl (layoutBounds monitors) scale (gridWidth impl monitors scale)
        (gridHeight impl monitors scale) activeIndex j mon,
      w ∈ allWrites impl monitors activeIndex scale := by
  intro w hw
  unfold allWrites
  refine List.mem_flatMap.mpr ⟨(j, mon), ?_, hw⟩
  rw [List.mk_mem_enum_iff_getElem?, ← List.get?_eq_getElem?]
  exact hj

/-- The offsets of the characters of a name of one-byte characters are their
positions. -/
theorem runeOffsets_ascii (cs : List Char) (off : Nat) (h : ∀ c ∈ cs, c.utf8Size = 1) :
    runeOffsets cs off = cs.enumFrom off := by
  induction cs generalizing off with
  | nil => rfl
  | cons c cs ih =>
    simp only [runeOffsets, List.enumFrom_cons, h c (List.mem_cons_self _ _)]
    rw [ih (off + 1) (fun d hd => h d (List.mem_cons_of_mem _ hd))]

/-- The content of a cell after one assignment. -/
theorem setCell_cellAt {grid grid' : Grid} {w : CellWrite} (h : setCell grid w = some grid')
    (y x : Int) :
    cellAt grid' y x = if w.row = y ∧ w.col = x then some w.cell else cellAt grid y x := by
  obtain ⟨line, hline, ⟨hr0, hr1⟩, ⟨hc0, hc1⟩, rfl⟩ := setCell_eq_some h
  have hrlt : w.row.toNat < grid.length := by omega
  have hclt : w.col.toNat < line.length := by omega
  unfold cellAt
  by_cases hyx : 0 ≤ y ∧ 0 ≤ x
  · rw [if_pos hyx, if_pos hyx]
    by_cases hrow : w.row = y
    · subst hrow
      rw [List.get?_eq_getElem?, List.getElem?_set_self hrlt, hline]
      by_cases hcol : w.col = x
      · subst hcol
        rw [if_pos ⟨rfl, rfl⟩]
        show (line.set w.col.toNat w.cell).get? w.col.toNat = some w.cell
        rw [List.get?_eq_getElem?, List.getElem?_set_self hclt]
      · rw [if_neg (fun hh => hcol hh.2)]
        show (line.set w.col.toNat w.cell).get? x.toNat = line.get? x.toNat
        rw [List.get?_eq_getElem?, List.getElem?_set_ne (by omega), ← List.get?_eq_getElem?]
    · rw [if_neg (fun hh => hrow hh.1), List.get?_eq_getElem?,
        List.getElem?_set_ne (by omega), ← List.get?_eq_getElem?]
  · rw [if_neg hyx, if_neg hyx, if_neg]
    rintro ⟨rfl, rfl⟩
    exact hyx ⟨hr0, hc0⟩

/-- The content of a cell after a successful sequence of assignments is that
of the last assignment to the cell. -/
theorem applyWrites_cellAt (ws : List CellWrite) (y x : Int) :
    ∀ grid grid' : Grid, applyWrites grid ws = some grid' →
      cellAt grid' y x = lastWriteAt y x (cellAt grid y x) ws := by
  induction ws with
  | nil =>
    intro grid grid' h
    simp only [applyWrites, Option.some.injEq] at h
    subst h
    rfl
  | cons w ws ih =>
    intro grid grid' h
    simp only [applyWrites] at h
    cases h1 : setCell grid w with
    | none => rw [h1] at h; cases h
    | some g1 =>
      rw [h1] at h
      rw [ih g1 grid' h, setCell_cellAt h1]
      rfl

/-- When every assignment to the cell writes `c`, a cell holding `c` keeps it. -/
theorem lastWriteAt_of_all (y x : Int) (c : String) (ws : List CellWrite)
    (hall : ∀ w ∈ ws, w.row = y ∧ w.col = x → w.cell = c) :
    lastWriteAt y x (some c) ws = some c := by
  induction ws with
  | nil => rfl
  | cons w ws ih =>
    have hrest := ih (fun v hv => hall v (List.mem_cons_of_mem _ hv))
    unfold lastWriteAt at hrest ⊢
    rw [List.foldl_cons]
    by_cases hw : w.row = y ∧ w.col = x
    · rw [if_pos hw, hall w (List.mem_cons_self _ _) hw]
      exact hrest
    · rw [if_neg hw]
      exact hrest

/-- When some assignment goes to the cell and every such assignment writes
`c`, the cell ends up holding `c`. -/
theorem lastWriteAt_of_exists (y x : Int) (c : String) (ws : List CellWrite)
    (hall : ∀ w ∈ ws, w.row = y ∧ w.col = x → w.cell = c)
    (hex : ∃ w ∈ ws, w.row = y ∧ w.col = x) (init : Option String) :
    lastWriteAt y x init ws = some c := by
  induction ws generalizing init with
  | nil =>
    obtain ⟨w, hw, -⟩ := hex
    cases hw
  | cons w ws ih =>
    unfold lastWriteAt
    rw [List.foldl_cons]
    by_cases hw : w.row = y ∧ w.col = x
    · rw [if_pos hw, hall w (List.mem_cons_self _ _) hw]
      exact lastWriteAt_of_all y x c ws (fun v hv => hall v (List.mem_cons_of_mem _ hv))
    · rw [if_neg hw]
      apply ih (fun v hv => hall v (List.mem_cons_of_mem _ hv))
      obtain ⟨v, hv, hvat⟩ := hex
      rcases List.mem_cons.mp hv with rfl | hv
      · exact absurd hvat hw
      · exact ⟨v, hv, hvat⟩

/-- The indexed items of a list, split at the index `j`. -/
theorem enum_split {α : Type} (l : List α) (j : Nat) (a : α) (h : l.get? j = some a) :
    l.enum = (l.take j).enum ++ (j, a) :: (l.drop (j + 1)).enumFrom (j + 1) := by
  obtain ⟨hlt, hget⟩ := List.get?_eq_some.mp h
  have hsplit : l = l.take j ++ a :: l.drop (j + 1) := by
    conv_lhs => rw [← List.take_append_drop j l, List.drop_eq_getElem_cons hlt]
    rw [← hget]
    rfl
  conv_lhs => rw [hsplit]
  rw [List.enum_append, List.enumFrom_cons, List.length_take, min_eq_left (le_of_lt hlt)]

/-- The indexed items after the index `j` are items of the list at larger
indices. -/
theorem mem_enumFrom_drop {α : Type} (l : List α) (j k : Nat) (b : α)
    (h : (k, b) ∈ (l.drop (j + 1)).enumFrom (j + 1)) : j < k ∧ l.get? k = some b := by
  rw [List.mk_mem_enumFrom_iff_le_and_getElem?_sub] at h
  obtain ⟨hle, hget⟩ := h
  rw [List.getElem?_drop] at hget
  refine ⟨by omega, ?_⟩
  rw [List.get?_eq_getElem?, ← hget]
  congr 1
  omega

/-- The length of a concatenation is the sum of the lengths. -/
theorem length_join (l : List String) : (String.join l).length = (l.map String.length).sum := by
  rw [String.length, String.data_join, List.length_flatten, List.map_map]
  rfl

/-- A row of cells of one character each is as long as it has cells. -/
theorem length_join_unit (row : List String) (h : ∀ c ∈ row, c.length = 1) :
    (String.join row).length = row.length := by
  rw [length_join]
  induction row with
  | nil => rfl
  | cons c cs ih =>
    rw [List.map_cons, List.sum_cons, h c (List.mem_cons_self _ _),
      ih (fun d hd => h d (List.mem_cons_of_mem _ hd)), List.length_cons]
    omega

/-- The border `strings.Repeat("─", n)` is `n` characters long. -/
theorem length_Repeat_bar (n : Int) : (Repeat "─" n).length = n.toNat := by
  unfold Repeat
  have hbar : ("─" : String).length = 1 := by decide
  rw [length_join, List.map_replicate, List.sum_replicate, hbar]
  simp

/-- Every assignment of `renderMonitors` writes one character. -/
theorem allWrites_unit (impl : F64 → Int) (monitors : List Monitor) (activeIndex : Int)
    (scale : F64) : ∀ w ∈ allWrites impl monitors activeIndex scale, w.cell.length = 1 := by
  intro w hw
  unfold allWrites at hw
  obtain ⟨⟨idx, mon⟩, -, hw⟩ := List.mem_flatMap.mp hw
  unfold monitorWrites at hw
  rcases List.mem_append.mp hw with hw | hw
  · rw [(mem_fillWrites.mp hw).2]
    unfold monitorChar
    simp only []
    split_ifs <;> decide
  · unfold nameWrites at hw
    simp only [] at hw
    split_ifs at hw
    · obtain ⟨ic, -, hsome⟩ := List.mem_filterMap.mp hw
      split_ifs at hsome
      cases hsome
      exact String.length_singleton _
    · cases hw

/-- The glyph of the last rectangle over a cell, on which no later name is
drawn, is the content of the cell in every completed grid. -/
theorem cellAt_of_last_fill (impl : F64 → Int) (alloc : Int → Int → Bool)
    (monitors : List Monitor) (activeIndex : Int) (scale : F64) (j : Nat) (mon : Monitor)
    (y x : Int) (hj : monitors.get? j = some mon)
    (hin : inRect (layoutRect impl monitors scale mon) (gridWidth impl monitors scale)
      (gridHeight impl monitors scale) y x)
    (hlast : ∀ (k : Nat) (mk : Monitor), j < k → monitors.get? k = some mk →
      ¬ inRect (layoutRect impl monitors scale mk) (gridWidth impl monitors scale)
        (gridHeight impl monitors scale) y x)
    (hname : ∀ (k : Nat) (mk : Monitor), j ≤ k → monitors.get? k = some mk →
      ∀ w ∈ nameWrites (layoutRect impl monitors scale mk) (gridWidth impl monitors scale)
          (gridHeight impl monitors scale) mk.Name,
        ¬ (w.row = y ∧ w.col = x)) :
    ∀ grid, renderGrid impl alloc monitors activeIndex scale = some grid →
      cellAt grid y x = some (monitorChar j activeIndex mon) := by
  intro grid hgrid
  rw [applyWrites_cellAt _ y x _ grid (renderGrid_eq_some.mp hgrid).2]
  unfold allWrites lastWriteAt
  rw [enum_split monitors j mon hj, List.flatMap_append, List.flatMap_cons, List.foldl_append]
  apply lastWriteAt_of_exists y x
  · intro w hw hat
    rcases List.mem_append.mp hw with hw | hw
    · unfold monitorWrites at hw
      rcases List.mem_append.mp hw with hw | hw
      · exact (mem_fillWrites.mp hw).2
      · exact absurd hat (hname j mon (le_refl _) hj w hw)
    · obtain ⟨⟨k, mk⟩, hk, hw⟩ := List.mem_flatMap.mp hw
      obtain ⟨hjk, hget⟩ := mem_enumFrom_drop monitors j k mk hk
      unfold monitorWrites at hw
      rcases List.mem_append.mp hw with hw | hw
      · have hrect := (mem_fillWrites.mp hw).1
        rw [hat.1, hat.2] at hrect
        exact absurd hrect (hlast k mk hjk hget)
      · exact absurd hat (hname k mk (le_of_lt hjk) hget w hw)
  · refine ⟨{ row := y, col := x, cell := monitorChar j activeIndex mon }, ?_, rfl, rfl⟩
    apply List.mem_append_left
    unfold monitorWrites
    apply List.mem_append_left
    exact mem_fillWrites.mpr ⟨hin, rfl⟩

set_option maxRecDepth 100000 in
/-- C14, as stated, fails: for a monitor 2000 units wide at the origin and the
scale 0.7 (the `float64` 6305039478318694 / 2^53), the product
`float64(2000) * scale` rounds up to 1400, so the code computes
`gridWidth = int(1400 / 20) + 10 = 80`, while the formula of the claim in
exact arithmetic gives `trunc (2000 * scale / 20) + 10 = 79`. -/
theorem grid_size_exact_counterexample :
    layoutBounds [wideMonitor] = { minX := 0, minY := 0, maxX := 2000, maxY := 1080 } ∧
    F64.finitePos F64.sevenTenths = true ∧
    F64.fraction F64.sevenTenths = some (6305039478318694, 9007199254740992) ∧
    F64.mul (F64.ofInt 2000) F64.sevenTenths = F64.fin false 6157265115545600 (-42) ∧
    (6157265115545600 : Int) = 1400 * 2 ^ 42 ∧
    gridWidth F64.amd64 [wideMonitor] F64.sevenTenths = 80 ∧
    exactGridSize (2000 - 0) F64.sevenTenths 20 10 20 = some 79 := by
  decide

set_option maxRecDepth 100000 in
/-- C14, amended. For every layout and every scale, `gridWidth` is
`max 20 (t + 10)` and `gridHeight` is `max 10 (u + 5)`, where `t` and `u` are
what the Go expressions `int(float64(maxX-minX) * scale / 20)` and
`int(float64(maxY-minY) * scale / 40)` compute (each `float64` operation
rounded to nearest, `int(f)` the truncation of `f` wherever it fits, the
`int` operations wrapping around), hence at least 20 and 10; the boundaries
are the extrema over the monitors and the origin; the grid `make` builds, and
the grid a completed loop leaves, has `gridHeight` rows of `gridWidth` cells;
and for the default layout in a 120x40 viewport (scenario A) the scale is
0.1 and the grid 42x10. -/
theorem grid_size_floor (impl : F64 → Int) (alloc : Int → Int → Bool) (monitors : List Monitor)
    (activeIndex : Int) (scale : F64) :
    gridWidth impl monitors scale =
      max 20 (wrapInt (F64.toInt impl (F64.div (F64.mul (F64.ofInt
        (wrapInt ((layoutBounds monitors).maxX - (layoutBounds monitors).minX))) scale)
        F64.twenty) + 10)) ∧
    gridHeight impl monitors scale =
      max 10 (wrapInt (F64.toInt impl (F64.div (F64.mul (F64.ofInt
        (wrapInt ((layoutBounds monitors).maxY - (layoutBounds monitors).minY))) scale)
        F64.forty) + 5)) ∧
    (∀ (neg : Bool) (m : Nat) (e : Int), isInt (F64.trunc neg m e) →
      F64.toInt impl (F64.fin neg m e) = F64.trunc neg m e) ∧
    (20 ≤ gridWidth impl monitors scale ∧ 10 ≤ gridHeight impl monitors scale) ∧
    (((layoutBounds monitors).minX ≤ 0 ∧
      (∀ mon ∈ monitors, (layoutBounds monitors).minX ≤ mon.X) ∧
      ((layoutBounds monitors).minX = 0 ∨
        ∃ mon ∈ monitors, (layoutBounds monitors).minX = mon.X)) ∧
    ((layoutBounds monitors).minY ≤ 0 ∧
      (∀ mon ∈ monitors, (layoutBounds monitors).minY ≤ mon.Y) ∧
      ((layoutBounds monitors).minY = 0 ∨
        ∃ mon ∈ monitors, (layoutBounds monitors).minY = mon.Y)) ∧
    (0 ≤ (layoutBounds monitors).maxX ∧
      (∀ mon ∈ monitors, wrapInt (mon.X + mon.Width) ≤ (layoutBounds monitors).maxX) ∧
      ((layoutBounds monitors).maxX = 0 ∨
        ∃ mon ∈ monitors, (layoutBounds monitors).maxX = wrapInt (mon.X + mon.Width))) ∧
    (0 ≤ (layoutBounds monitors).maxY ∧
      (∀ mon ∈ monitors, wrapInt (mon.Y + mon.Height) ≤ (layoutBounds monitors).maxY) ∧
      ((layoutBounds monitors).maxY = 0 ∨
        ∃ mon ∈ monitors, (layoutBounds monitors).maxY = wrapInt (mon.Y + mon.Height)))) ∧
    (∀ g, emptyGrid alloc (gridWidth impl monitors scale) (gridHeight impl monitors scale) = some g →
      g = List.replicate (gridHeight impl monitors scale).toNat
        (List.replicate (gridWidth impl monitors scale).toNat " ")) ∧
    (∀ grid, renderGrid impl alloc monitors activeIndex scale = some grid →
      grid.length = (gridHeight impl monitors scale).toNat ∧
      ∀ row ∈ grid, row.length = (gridWidth impl monitors scale).toNat) ∧
    (calculateScale defaultMonitors 120 40 = F64.oneTenth ∧
      gridWidth impl defaultMonitors F64.oneTenth = 42 ∧
      gridHeight impl defaultMonitors F64.oneTenth = 10 ∧
      (renderGrid F64.amd64 linuxAlloc defaultMonitors 0 F64.oneTenth).map
        (fun g => g.map List.length) = some (List.replicate 10 42)) := by
  have hW : gridWidth impl monitors scale =
      max 20 (wrapInt (F64.toInt impl (F64.div (F64.mul (F64.ofInt
        (wrapInt ((layoutBounds monitors).maxX - (layoutBounds monitors).minX))) scale)
        F64.twenty) + 10)) := by
    simp only [gridWidth, cells]
    split_ifs with h
    · rw [max_eq_left (le_of_lt h)]
    · rw [max_eq_right (not_lt.mp h)]
  have hH : gridHeight impl monitors scale =
      max 10 (wrapInt (F64.toInt impl (F64.div (F64.mul (F64.ofInt
        (wrapInt ((layoutBounds monitors).maxY - (layoutBounds monitors).minY))) scale)
        F64.forty) + 5)) := by
    simp only [gridHeight, cells]
    split_ifs with h
    · rw [max_eq_left (le_of_lt h)]
    · rw [max_eq_right (not_lt.mp h)]
  refine ⟨hW, hH, ?_, ⟨?_, ?_⟩, layoutBounds_spec monitors, ?_, ?_, by decide, ?_, ?_, by decide⟩
  · intro neg m e h
    exact F64.toInt_of_toInt? impl _ _ (by simp only [F64.toInt?, h, if_true])
  · rw [hW]; exact le_max_left _ _
  · rw [hH]; exact le_max_left _ _
  · intro g hg
    unfold emptyGrid at hg
    split_ifs at hg
    cases hg
    rfl
  · intro grid hgrid
    exact renderGrid_dims hgrid
  · have hb : layoutBounds defaultMonitors = { minX := 0, minY := 0, maxX := 6400, maxY := 1440 } := by
      decide
    have hc : F64.toInt impl (F64.div (F64.mul (F64.ofInt (wrapInt (6400 - 0))) F64.oneTenth)
        F64.twenty) = 32 := F64.toInt_of_toInt? impl _ _ (by decide)
    simp only [gridWidth, cells, hb, hc]
    decide
  · have hb : layoutBounds defaultMonitors = { minX := 0, minY := 0, maxX := 6400, maxY := 1440 } := by
      decide
    have hc : F64.toInt impl (F64.div (F64.mul (F64.ofInt (wrapInt (1440 - 0))) F64.oneTenth)
        F64.forty) = 3 := F64.toInt_of_toInt? impl _ _ (by decide)
    simp only [gridHeight, cells, hb, hc]
    decide

/-- C15. Glyph precedence in `renderMonitors`: the fill character of the
monitor at `j` is the full block when the monitor is selected, whether or not
`j` is the cursor; it is the dark shade exactly when `j` is the cursor and the
monitor is not selected; it is the light shade otherwise. The turn of the
monitor in the loop is its rectangle filled with that character, then its
name; every cell of its clipped rectangle is assigned that character; and in
every completed grid a cell of the rectangle that no later rectangle covers
and no name from `j` on is drawn on holds that character. -/
theorem glyph_precedence (impl : F64 → Int) (alloc : Int → Int → Bool)
    (monitors : List Monitor) (activeIndex : Int) (scale : F64) (j : Nat) (mon : Monitor)
    (hj : monitors.get? j = some mon) :
    (mon.Selected = true → monitorChar j activeIndex mon = "█") ∧
    (monitorChar j activeIndex mon = "▓" ↔ ((j : Int) = activeIndex ∧ mon.Selected = false)) ∧
    (mon.Selected = false → (j : Int) ≠ activeIndex → monitorChar j activeIndex mon = "░") ∧
    monitorWrites impl (layoutBounds monitors) scale (gridWidth impl monitors scale)
        (gridHeight impl monitors scale) activeIndex j mon =
      fillWrites (layoutRect impl monitors scale mon) (gridWidth impl monitors scale)
          (gridHeight impl monitors scale) (monitorChar j activeIndex mon) ++
        nameWrites (layoutRect impl monitors scale mon) (gridWidth impl monitors scale)
          (gridHeight impl monitors scale) mon.Name ∧
    (∀ y x : Int,
      inRect (layoutRect impl monitors scale mon) (gridWidth impl monitors scale)
        (gridHeight impl monitors scale) y x →
      ({ row := y, col := x, cell := monitorChar j activeIndex mon } : CellWrite) ∈
        allWrites impl monitors activeIndex scale) ∧
    (∀ (grid : Grid) (y x : Int),
      renderGrid impl alloc monitors activeIndex scale = some grid →
      inRect (layoutRect impl monitors scale mon) (gridWidth impl monitors scale)
        (gridHeight impl monitors scale) y x →
      (∀ (k : Nat) (mk : Monitor), j < k → monitors.get? k = some mk →
        ¬ inRect (layoutRect impl monitors scale mk) (gridWidth impl monitors scale)
          (gridHeight impl monitors scale) y x) →
      (∀ (k : Nat) (mk : Monitor), j ≤ k → monitors.get? k = some mk →
        ∀ w ∈ nameWrites (layoutRect impl monitors scale mk) (gridWidth impl monitors scale)
            (gridHeight impl monitors scale) mk.Name,
          ¬ (w.row = y ∧ w.col = x)) →
      cellAt grid y x = some (monitorChar j activeIndex mon)) := by
  refine ⟨?_, ?_, ?_, rfl, ?_, ?_⟩
  · intro h
    simp [monitorChar, h]
  · constructor
    · intro h
      by_cases hs : mon.Selected = true
      · simp only [monitorChar, hs, if_true] at h
        exact absurd h (by decide)
      · by_cases hi : (j : Int) = activeIndex
        · exact ⟨hi, by simpa using hs⟩
        · simp only [monitorChar, hs, hi, if_false] at h
          exact absurd h (by decide)
    · rintro ⟨hi, hs⟩
      simp [monitorChar, hi, hs]
  · intro hs hi
    simp [monitorChar, hi, hs]
  · intro y x hin
    apply monitorWrites_subset impl monitors activeIndex scale j mon hj
    unfold monitorWrites
    apply List.mem_append_left
    exact mem_fillWrites.mpr ⟨hin, rfl⟩
  · intro grid y x hgrid hin hlast hname
    exact cellAt_of_last_fill impl alloc monitors activeIndex scale j mon y x hj hin hlast hname
      grid hgrid

set_option maxRecDepth 100000 in
/-- Witness of C15: in the default layout at the scale 0.1 with the cursor on
the selected `DP-2`, the glyph of `DP-2` is the full block and the cell
`(0, 9)` of its rectangle holds it, while `eDP-1` and `DP-4` are drawn in the
light shade. -/
theorem glyph_precedence_witness :
    movingModel.monitors.get? 1 = some movingMonitor ∧
    monitorChar ((1 : Nat) : Int) 1 movingMonitor = "█" ∧
    (renderGrid F64.amd64 linuxAlloc movingModel.monitors 1 F64.oneTenth).map
      (fun grid => (cellAt grid 0 0, cellAt grid 0 9, cellAt grid 0 19)) =
      some (some "░", some "█", some "░") :=
  ⟨by decide,
    (glyph_precedence F64.amd64 linuxAlloc movingModel.monitors 1 F64.oneTenth 1 movingMonitor
      (by decide)).1 (by decide),
    by decide⟩

set_option maxRecDepth 100000 in
/-- C17. Rasterization leaves the grid on overflow: every assignment of
`renderMonitors` targets a row in `[0, gridHeight)` and a column in
`[0, gridWidth)` as long as no operation of the rasterizer leaves the range of
`int` (and then `renderMonitors` returns when the grid is granted), but with
monitors of positive size at `x = -1` and `x = 9223372036854775807` and the
scale 0.1 the difference `mon.X - minX` of the second monitor wraps around,
its rectangle starts at the column `-46116860184273880`, only the upper
bounds are tested, and the fill loop panics on `grid[0][-46116860184273880]`
of the 20x10 grid. -/
theorem raster_leaves_grid (impl : F64 → Int) (alloc : Int → Int → Bool)
    (monitors : List Monitor) (activeIndex : Int) (scale : F64) :
    ((∀ mon ∈ monitors, 0 < mon.Width ∧ 0 < mon.Height) → F64.finitePos scale = true →
      (∀ mon ∈ monitors, rasterInRange (layoutBounds monitors) scale mon) →
      (∀ w ∈ allWrites impl monitors activeIndex scale,
        (0 ≤ w.row ∧ w.row < gridHeight impl monitors scale) ∧
        (0 ≤ w.col ∧ w.col < gridWidth impl monitors scale)) ∧
      (alloc (gridWidth impl monitors scale) (gridHeight impl monitors scale) = true →
        ∃ out, renderMonitors impl alloc monitors activeIndex scale = some out)) ∧
    ((∀ mon ∈ overflowLayout, 0 < mon.Width ∧ 0 < mon.Height) ∧
      F64.finitePos F64.oneTenth = true ∧
      gridWidth F64.amd64 overflowLayout F64.oneTenth = 20 ∧
      gridHeight F64.amd64 overflowLayout F64.oneTenth = 10 ∧
      emptyGrid linuxAlloc 20 10 = some (blankGrid 20 10) ∧
      (layoutRect F64.amd64 overflowLayout F64.oneTenth
        { Name := "R", X := 9223372036854775807, Y := 0, Width := 1920, Height := 1080,
          Selected := false }).startX = -46116860184273880 ∧
      ({ row := 0, col := -46116860184273880, cell := "░" } : CellWrite) ∈
        allWrites F64.amd64 overflowLayout 0 F64.oneTenth ∧
      renderMonitors F64.amd64 linuxAlloc overflowLayout 0 F64.oneTenth = none) := by
  refine ⟨?_, by decide⟩
  intro hsize hscale hrange
  refine ⟨allWrites_valid impl monitors activeIndex scale (F64.isNeg_of_finitePos hscale)
    (fun mon hm => le_of_lt (hsize mon hm).2) hrange, ?_⟩
  intro halloc
  obtain ⟨grid, hg, -⟩ := renderGrid_of_inRange impl alloc monitors activeIndex scale hsize
    hscale hrange halloc
  exact ⟨renderText grid (gridWidth impl monitors scale), by unfold renderMonitors; rw [hg]⟩

/-- Two characters of a name do not start at the same offset. -/
theorem runeOffsets_inj {cs : List Char} {off i : Nat} {c d : Char}
    (hc : (i, c) ∈ runeOffsets cs off) (hd : (i, d) ∈ runeOffsets cs off) : c = d := by
  induction cs generalizing off with
  | nil => simp [runeOffsets] at hc
  | cons a as ih =>
    simp only [runeOffsets, List.mem_cons, Prod.mk.injEq] at hc hd
    have ha := Char.utf8Size_pos a
    rcases hc with ⟨hi, rfl⟩ | hc
    · rcases hd with ⟨-, rfl⟩ | hd
      · rfl
      · have := (mem_runeOffsets hd).1
        omega
    · rcases hd with ⟨hi, rfl⟩ | hd
      · have := (mem_runeOffsets hc).1
        omega
      · exact ih hc hd

/-- The name loop writes the whole name when the rectangle is more than two
cells wider than the name and the label starts inside the grid. -/
theorem nameWrites_eq_labelWrites (r : Rect) (gw gh : Int) (name : String)
    (hgwI : isInt gw) (hend : r.endX < gw)
    (hwide : r.endX - r.startX > (name.utf8ByteSize : Int) + 2)
    (hlen : isInt ((name.utf8ByteSize : Int) + 2))
    (hrow : nameRow r < gh) (hcol : 0 ≤ r.startX + 1 ∧ r.startX + 1 < gw) :
    nameWrites r gw gh name = labelWrites r name := by
  have hgwmax : gw ≤ 2 ^ 63 - 1 := by
    unfold isInt minInt maxInt intBits at hgwI
    exact hgwI.2
  have hnx : wrapInt (r.startX + 1) = r.startX + 1 := by
    apply wrapInt_of_isInt
    unfold isInt minInt maxInt intBits
    norm_num at hgwmax ⊢
    omega
  have hdiff : wrapInt (r.endX - r.startX) = r.endX - r.startX := by
    apply wrapInt_of_isInt
    unfold isInt minInt maxInt intBits
    norm_num at hgwmax ⊢
    omega
  unfold nameWrites labelWrites
  simp only [hnx, hdiff, wrapInt_of_isInt hlen]
  have hcond : r.startX + 1 < gw ∧ Int.tdiv (wrapInt (r.startY + r.endY)) 2 < gh ∧
      r.endX - r.startX > (name.utf8ByteSize : Int) + 2 := ⟨hcol.2, hrow, hwide⟩
  rw [if_pos hcond, ← List.filterMap_eq_map]
  apply List.filterMap_congr
  rintro ⟨i, c⟩ hic
  have hi := runeOffsets_lt hic
  have hw : wrapInt (r.startX + 1 + (i : Int)) = r.startX + 1 + (i : Int) := by
    apply wrapInt_of_isInt
    unfold isInt minInt maxInt intBits
    norm_num at hgwmax ⊢
    omega
  simp only [hw, Function.comp]
  rw [if_pos ⟨by omega, by omega⟩]
  rfl

set_option maxRecDepth 100000 in
/-- C18, as stated, fails: a monitor named `DP-2` (4 bytes) whose rectangle is
6 cells wide, that is `len(Name) + 2`, with its label row 1 and column 1
inside the 20x10 grid, gets no name: the test of line 340 is
`endX-startX > len(name)+2`; the run completes and every cell of the grid
holds the fill character or a blank. -/
theorem name_label_counterexample :
    layoutRect F64.amd64 [tightMonitor] F64.one tightMonitor =
      { startX := 0, startY := 0, endX := 6, endY := 2 } ∧
    ((tightMonitor.Name.utf8ByteSize : Int) + 2 = 6 ∧ (6 : Int) - 0 ≥ 6) ∧
    gridWidth F64.amd64 [tightMonitor] F64.one = 20 ∧
    gridHeight F64.amd64 [tightMonitor] F64.one = 10 ∧
    nameRow (layoutRect F64.amd64 [tightMonitor] F64.one tightMonitor) = 1 ∧
    nameWrites (layoutRect F64.amd64 [tightMonitor] F64.one tightMonitor) 20 10
      tightMonitor.Name = [] ∧
    (∀ w ∈ allWrites F64.amd64 [tightMonitor] 0 F64.one, w.cell = "▓") ∧
    (renderGrid F64.amd64 linuxAlloc [tightMonitor] 0 F64.one).map
      (fun grid => decide (∀ row ∈ grid, ∀ c ∈ row, c = "▓" ∨ c = " ")) = some true := by
  decide

/-- C18, amended. In every run of `renderMonitors` that completes, for every
monitor of the layout whose clipped rectangle is more than `len(Name) + 2`
cells wide (`len` in bytes), whose label row `(startY + endY) / 2` and column
`startX + 1` lie inside the grid, the name loop assigns every character of
the name, in the label row, at column `startX + 1` plus the byte offset of
the character (consecutive columns from `startX + 1` on for a name of
one-byte characters); each of these cells lies inside the grid, and holds its
character in the final grid unless a later monitor assigns it. -/
theorem name_label_drawn (impl : F64 → Int) (alloc : Int → Int → Bool)
    (monitors : List Monitor) (activeIndex : Int) (scale : F64) (j : Nat) (mon : Monitor)
    (grid : Grid) (hj : monitors.get? j = some mon)
    (hgrid : renderGrid impl alloc monitors activeIndex scale = some grid)
    (hwide : (layoutRect impl monitors scale mon).endX - (layoutRect impl monitors scale mon).startX
      > (mon.Name.utf8ByteSize : Int) + 2)
    (hlen : isInt ((mon.Name.utf8ByteSize : Int) + 2))
    (hrow : 0 ≤ nameRow (layoutRect impl monitors scale mon) ∧
      nameRow (layoutRect impl monitors scale mon) < gridHeight impl monitors scale)
    (hcol : 0 ≤ (layoutRect impl monitors scale mon).startX + 1 ∧
      (layoutRect impl monitors scale mon).startX + 1 < gridWidth impl monitors scale) :
    nameWrites (layoutRect impl monitors scale mon) (gridWidth impl monitors scale)
        (gridHeight impl monitors scale) mon.Name =
      labelWrites (layoutRect impl monitors scale mon) mon.Name ∧
    (∀ w ∈ labelWrites (layoutRect impl monitors scale mon) mon.Name,
      w ∈ allWrites impl monitors activeIndex scale ∧
      (0 ≤ w.row ∧ w.row < gridHeight impl monitors scale) ∧
      (0 ≤ w.col ∧ w.col < gridWidth impl monitors scale)) ∧
    (∀ w ∈ labelWrites (layoutRect impl monitors scale mon) mon.Name,
      (∀ (k : Nat) (mk : Monitor), j < k → monitors.get? k = some mk →
        ∀ v ∈ monitorWrites impl (layoutBounds monitors) scale (gridWidth impl monitors scale)
            (gridHeight impl monitors scale) activeIndex k mk,
          ¬ (v.row = w.row ∧ v.col = w.col)) →
      cellAt grid w.row w.col = some w.cell) ∧
    ((∀ c ∈ mon.Name.toList, c.utf8Size = 1) →
      labelWrites (layoutRect impl monitors scale mon) mon.Name =
        mon.Name.toList.enum.map (fun ic =>
          { row := nameRow (layoutRect impl monitors scale mon),
            col := (layoutRect impl monitors scale mon).startX + 1 + (ic.1 : Int),
            cell := String.singleton ic.2 })) := by
  obtain ⟨hgw, hgwI⟩ := gridWidth_bounds impl monitors scale
  have hend : (layoutRect impl monitors scale mon).endX < gridWidth impl monitors scale :=
    monitorRect_endX_lt impl _ scale _ _ mon hgw hgwI
  have hname := nameWrites_eq_labelWrites (layoutRect impl monitors scale mon)
    (gridWidth impl monitors scale) (gridHeight impl monitors scale) mon.Name hgwI hend hwide
    hlen hrow.2 hcol
  have hmem : ∀ w ∈ labelWrites (layoutRect impl monitors scale mon) mon.Name,
      w ∈ allWrites impl monitors activeIndex scale := by
    intro w hw
    rw [← hname] at hw
    apply monitorWrites_subset impl monitors activeIndex scale j mon hj
    unfold monitorWrites
    exact List.mem_append_right _ hw
  refine ⟨hname, ?_, ?_, ?_⟩
  · intro w hw
    refine ⟨hmem w hw, ?_⟩
    unfold labelWrites at hw
    obtain ⟨⟨i, c⟩, hic, rfl⟩ := List.mem_map.mp hw
    have hi := runeOffsets_lt hic
    refine ⟨hrow, ?_, ?_⟩
    · show 0 ≤ (layoutRect impl monitors scale mon).startX + 1 + (i : Int)
      omega
    · show (layoutRect impl monitors scale mon).startX + 1 + (i : Int) <
        gridWidth impl monitors scale
      omega
  · intro w hw hlater
    rw [applyWrites_cellAt _ w.row w.col _ grid (renderGrid_eq_some.mp hgrid).2]
    unfold allWrites lastWriteAt
    rw [enum_split monitors j mon hj, List.flatMap_append, List.flatMap_cons]
    have hturn : monitorWrites impl (layoutBounds monitors) scale (gridWidth impl monitors scale)
        (gridHeight impl monitors scale) activeIndex (j, mon).1 (j, mon).2 =
        fillWrites (layoutRect impl monitors scale mon) (gridWidth impl monitors scale)
          (gridHeight impl monitors scale) (monitorChar j activeIndex mon) ++
        labelWrites (layoutRect impl monitors scale mon) mon.Name := by
      rw [← hname]
      rfl
    rw [hturn, List.append_assoc, ← List.append_assoc, List.foldl_append]
    apply lastWriteAt_of_exists w.row w.col
    · intro v hv hat
      rcases List.mem_append.mp hv with hv | hv
      · unfold labelWrites at hv hw
        obtain ⟨⟨i, c⟩, hic, rfl⟩ := List.mem_map.mp hv
        obtain ⟨⟨i', c'⟩, hic', rfl⟩ := List.mem_map.mp hw
        have hii : i = i' := by
          have := hat.2
          simp only [] at this
          omega
        subst hii
        rw [runeOffsets_inj hic hic']
      · obtain ⟨⟨k, mk⟩, hk, hv⟩ := List.mem_flatMap.mp hv
        obtain ⟨hjk, hget⟩ := mem_enumFrom_drop monitors j k mk hk
        exact absurd hat (hlater k mk hjk hget v hv)
    · exact ⟨w, List.mem_append_left _ hw, rfl, rfl⟩
  · intro hascii
    unfold labelWrites
    rw [runeOffsets_ascii _ 0 hascii]
    rfl

set_option maxRecDepth 100000 in
/-- Witness of C18: a monitor named `DP-2` with a rectangle 7 cells wide gets
its name in row 1, columns 1 to 4, of the grid `renderMonitors` completes. -/
theorem name_label_drawn_witness :
    [roomyMonitor].get? 0 = some roomyMonitor ∧
    labelWrites (layoutRect F64.amd64 [roomyMonitor] F64.one roomyMonitor) roomyMonitor.Name =
      [ { row := 1, col := 1, cell := "D" }, { row := 1, col := 2, cell := "P" },
        { row := 1, col := 3, cell := "-" }, { row := 1, col := 4, cell := "2" } ] ∧
    ∃ grid, renderGrid F64.amd64 linuxAlloc [roomyMonitor] 0 F64.one = some grid ∧
      (∀ w ∈ labelWrites (layoutRect F64.amd64 [roomyMonitor] F64.one roomyMonitor)
          roomyMonitor.Name,
        (∀ (k : Nat) (mk : Monitor), 0 < k → [roomyMonitor].get? k = some mk →
          ∀ v ∈ monitorWrites F64.amd64 (layoutBounds [roomyMonitor]) F64.one
              (gridWidth F64.amd64 [roomyMonitor] F64.one)
              (gridHeight F64.amd64 [roomyMonitor] F64.one) 0 k mk,
            ¬ (v.row = w.row ∧ v.col = w.col)) →
        cellAt grid w.row w.col = some w.cell) ∧
      [cellAt grid 1 0, cellAt grid 1 1, cellAt grid 1 2, cellAt grid 1 3, cellAt grid 1 4,
        cellAt grid 1 5] = [some "▓", some "D", some "P", some "-", some "2", some "▓"] := by
  refine ⟨by decide, by decide, ?_⟩
  cases hg : renderGrid F64.amd64 linuxAlloc [roomyMonitor] 0 F64.one with
  | none => exact absurd hg (by decide)
  | some grid =>
    refine ⟨grid, rfl, (name_label_drawn F64.amd64 linuxAlloc [roomyMonitor] 0 F64.one 0
      roomyMonitor grid (by decide) hg (by decide) (by decide) (by decide) (by decide)).2.2.1, ?_⟩
    have hall : (renderGrid F64.amd64 linuxAlloc [roomyMonitor] 0 F64.one).map
        (fun g => [cellAt g 1 0, cellAt g 1 1, cellAt g 1 2, cellAt g 1 3, cellAt g 1 4,
          cellAt g 1 5]) =
        some [some "▓", some "D", some "P", some "-", some "2", some "▓"] := by decide
    rw [hg] at hall
    exact Option.some.inj hall

set_option maxRecDepth 100000 in
/-- C19, as stated, fails: with monitors of positive size at `x = -1` and at
`x = 9223372036854775807` and the scale 0.1, the cell `(0, 0)` lies in the
clipped rectangle of the first monitor only and no name is drawn on it, yet
the cell has no final content: the grid is allocated and the fill loop of the
second monitor panics on a negative column (the defect reported for C17). -/
theorem last_writer_counterexample :
    overflowLayout.get? 0 =
      some { Name := "L", X := -1, Y := 0, Width := 1920, Height := 1080, Selected := false } ∧
    (∀ mon ∈ overflowLayout,
      ∀ w ∈ nameWrites (layoutRect F64.amd64 overflowLayout F64.oneTenth mon)
          (gridWidth F64.amd64 overflowLayout F64.oneTenth)
          (gridHeight F64.amd64 overflowLayout F64.oneTenth) mon.Name,
        ¬ (w.row = 0 ∧ w.col = 0)) ∧
    (overflowLayout.map (fun mon =>
      decide (inRect (layoutRect F64.amd64 overflowLayout F64.oneTenth mon)
        (gridWidth F64.amd64 overflowLayout F64.oneTenth)
        (gridHeight F64.amd64 overflowLayout F64.oneTenth) 0 0))) = [true, false] ∧
    linuxAlloc (gridWidth F64.amd64 overflowLayout F64.oneTenth)
      (gridHeight F64.amd64 overflowLayout F64.oneTenth) = true ∧
    renderGrid F64.amd64 linuxAlloc overflowLayout 0 F64.oneTenth = none := by
  decide

/-- C19, amended. Last writer wins whenever rendering completes: if the cell
`(y, x)` lies in the clipped rectangle of the monitor at `j`, in that of no
later monitor, and no monitor at an index `≥ j` draws a name character on it,
then in every grid `renderMonitors` completes the cell holds the glyph of the
monitor at `j`, whatever earlier monitors drew there; and rendering
completes, with that content, for every layout of monitors of positive size
and every finite scale greater than zero for which no operation of the
rasterizer leaves the range of `int` and the grid is one `make` allocates. -/
theorem last_writer_wins (impl : F64 → Int) (alloc : Int → Int → Bool)
    (monitors : List Monitor) (activeIndex : Int)
    (scale : F64) (j : Nat) (mon : Monitor) (y x : Int)
    (hj : monitors.get? j = some mon)
    (hin : inRect (layoutRect impl monitors scale mon) (gridWidth impl monitors scale)
      (gridHeight impl monitors scale) y x)
    (hlast : ∀ (k : Nat) (mk : Monitor), j < k → monitors.get? k = some mk →
      ¬ inRect (layoutRect impl monitors scale mk) (gridWidth impl monitors scale)
        (gridHeight impl monitors scale) y x)
    (hname : ∀ (k : Nat) (mk : Monitor), j ≤ k → monitors.get? k = some mk →
      ∀ w ∈ nameWrites (layoutRect impl monitors scale mk) (gridWidth impl monitors scale)
          (gridHeight impl monitors scale) mk.Name,
        ¬ (w.row = y ∧ w.col = x)) :
    (∀ grid, renderGrid impl alloc monitors activeIndex scale = some grid →
      cellAt grid y x = some (monitorChar j activeIndex mon)) ∧
    ((∀ mon ∈ monitors, 0 < mon.Width ∧ 0 < mon.Height) → F64.finitePos scale = true →
      (∀ mon ∈ monitors, rasterInRange (layoutBounds monitors) scale mon) →
      alloc (gridWidth impl monitors scale) (gridHeight impl monitors scale) = true →
      ∃ grid, renderGrid impl alloc monitors activeIndex scale = some grid ∧
        cellAt grid y x = some (monitorChar j activeIndex mon)) := by
  have hmain := cellAt_of_last_fill impl alloc monitors activeIndex scale j mon y x hj hin hlast
    hname
  refine ⟨hmain, ?_⟩
  intro hsize hscale hrange halloc
  obtain ⟨grid, hg, -⟩ := renderGrid_of_inRange impl alloc monitors activeIndex scale hsize
    hscale hrange halloc
  exact ⟨grid, hg, hmain grid hg⟩

set_option maxRecDepth 100000 in
/-- Witness of C19: in the layout of two overlapping monitors, with the cursor
on the first, the cell `(0, 6)` lies in the rectangles of both; the first
monitor fills it with the dark shade, the second, the last over the cell,
with the light shade, which is its content in the grid rendered. -/
theorem last_writer_wins_witness :
    overlapLayout.get? 1 = some overlapSecond ∧
    (overlapLayout.map (fun mon =>
      decide (inRect (layoutRect F64.amd64 overlapLayout F64.one mon)
        (gridWidth F64.amd64 overlapLayout F64.one)
        (gridHeight F64.amd64 overlapLayout F64.one) 0 6))) = [true, true] ∧
    overlapLayout.enum.map (fun im => monitorChar (im.1 : Int) 0 im.2) = ["▓", "░"] ∧
    ∃ grid, renderGrid F64.amd64 linuxAlloc overlapLayout 0 F64.one = some grid ∧
      cellAt grid 0 6 = some "░" :=
  ⟨by decide, by decide, by decide,
    (last_writer_wins F64.amd64 linuxAlloc overlapLayout 0 F64.one 1 overlapSecond 0 6
      (by decide) (by decide)
      (by
        intro k mk hk hget
        match k, hk, hget with
        | 0, hk, _ => omega
        | 1, hk, _ => omega
        | n + 2, _, hget => simp [overlapLayout] at hget)
      (by
        intro k mk hk hget
        match k, hk, hget with
        | 0, hk, _ => omega
        | 1, _, hget =>
          have hmk : mk = overlapSecond := by simpa [overlapLayout, overlapSecond] using hget.symm
          subst hmk
          decide
        | n + 2, _, hget => simp [overlapLayout] at hget)).2
      (by decide) (by decide) (by decide) (by decide)⟩

/-- A line followed by a newline is the first piece of the text. -/
theorem splitLines_append_nl (l rest : List Char) (h : '\n' ∉ l) :
    splitLines (l ++ '\n' :: rest) = l :: splitLines rest := by
  induction l with
  | nil => simp [splitLines]
  | cons c cs ih =>
    have hc : c ≠ '\n' := fun hc => h (hc ▸ List.mem_cons_self _ _)
    have hcs : '\n' ∉ cs := fun hm => h (List.mem_cons_of_mem _ hm)
    rw [List.cons_append, splitLines, if_neg hc, ih hcs]

/-- The pieces of lines without newline, each followed by a newline, are the
lines and a last empty piece. -/
theorem splitLines_lines (ls : List (List Char)) (h : ∀ l ∈ ls, '\n' ∉ l) :
    splitLines (ls.flatMap (fun l => l ++ ['\n'])) = ls ++ [[]] := by
  induction ls with
  | nil => rfl
  | cons l ls ih =>
    rw [List.flatMap_cons, List.append_assoc, List.singleton_append,
      splitLines_append_nl _ _ (h l (List.mem_cons_self _ _)),
      ih (fun m hm => h m (List.mem_cons_of_mem _ hm))]
    rfl

/-- The text written is its lines, each followed by a newline: the header,
the lines of the box, an empty line and the legend. -/
theorem renderText_data (grid : Grid) (gw : Int) :
    (renderText grid gw).data =
      ((["Display Layout:"] ++ boxLines grid gw ++ ["", legendLine]).map String.data).flatMap
        (fun l => l ++ ['\n']) := by
  simp only [renderText, legendLine, boxLines, String.data_append, String.data_join,
    List.map_append, List.map_map, List.map_cons, List.map_nil, List.flatMap_append,
    List.flatMap_cons, List.flatMap_nil, List.flatten_append,
    List.flatten_cons, List.flatten_nil, List.append_assoc, List.append_nil, Function.comp_def,
    List.flatMap_map, List.flatMap_def]
  rfl

/-- A character of the name loop is a character of the name. -/
theorem mem_runeOffsets_char {cs : List Char} {off i : Nat} {c : Char}
    (h : (i, c) ∈ runeOffsets cs off) : c ∈ cs := by
  induction cs generalizing off with
  | nil => simp [runeOffsets] at h
  | cons d ds ih =>
    simp only [runeOffsets, List.mem_cons, Prod.mk.injEq] at h
    rcases h with ⟨-, rfl⟩ | h
    · exact List.mem_cons_self _ _
    · exact List.mem_cons_of_mem _ (ih h)

/-- An assignment of a clean cell keeps every cell clean. -/
theorem setCell_clean {grid grid' : Grid} {w : CellWrite}
    (h : setCell grid w = some grid') (hu : ∀ row ∈ grid, ∀ c ∈ row, cleanCell c)
    (hw : cleanCell w.cell) : ∀ row ∈ grid', ∀ c ∈ row, cleanCell c := by
  obtain ⟨line, hline, -, -, rfl⟩ := setCell_eq_some h
  intro row hrow c hc
  rcases List.mem_or_eq_of_mem_set hrow with hrow | rfl
  · exact hu row hrow c hc
  · rcases List.mem_or_eq_of_mem_set hc with hc | rfl
    · exact hu line (List.get?_mem hline) c hc
    · exact hw

/-- A successful sequence of assignments of clean cells keeps every cell
clean. -/
theorem applyWrites_clean (ws : List CellWrite) :
    ∀ grid grid' : Grid, applyWrites grid ws = some grid' →
      (∀ row ∈ grid, ∀ c ∈ row, cleanCell c) → (∀ w ∈ ws, cleanCell w.cell) →
      ∀ row ∈ grid', ∀ c ∈ row, cleanCell c := by
  induction ws with
  | nil =>
    intro grid grid' h hu _
    simp only [applyWrites, Option.some.injEq] at h
    subst h
    exact hu
  | cons w ws ih =>
    intro grid grid' h hu hw
    simp only [applyWrites] at h
    cases h1 : setCell grid w with
    | none => rw [h1] at h; cases h
    | some g1 =>
      rw [h1] at h
      exact ih g1 grid' h (setCell_clean h1 hu (hw w (List.mem_cons_self _ _)))
        (fun v hv => hw v (List.mem_cons_of_mem _ hv))

/-- Every cell of the empty grid is clean. -/
theorem blankGrid_clean (gw gh : Int) : ∀ row ∈ blankGrid gw gh, ∀ c ∈ row, cleanCell c := by
  intro row hrow c hc
  unfold blankGrid at hrow
  rw [List.eq_of_mem_replicate hrow] at hc
  rw [List.eq_of_mem_replicate hc]
  exact ⟨by decide, by decide⟩

/-- Every assignment of `renderMonitors` writes a clean cell when no name
holds a newline. -/
theorem allWrites_clean (impl : F64 → Int) (monitors : List Monitor) (activeIndex : Int)
    (scale : F64) (hnl : ∀ mon ∈ monitors, '\n' ∉ mon.Name.toList) :
    ∀ w ∈ allWrites impl monitors activeIndex scale, cleanCell w.cell := by
  intro w hw
  unfold allWrites at hw
  obtain ⟨⟨idx, mon⟩, him, hw⟩ := List.mem_flatMap.mp hw
  have hmon : mon ∈ monitors := by
    have hsnd : mon ∈ monitors.enum.map Prod.snd := List.mem_map.mpr ⟨(idx, mon), him, rfl⟩
    rwa [List.enum_map_snd] at hsnd
  unfold monitorWrites at hw
  rcases List.mem_append.mp hw with hw | hw
  · rw [(mem_fillWrites.mp hw).2]
    unfold monitorChar
    simp only []
    split_ifs <;> exact ⟨by decide, by decide⟩
  · unfold nameWrites at hw
    simp only [] at hw
    split_ifs at hw
    · obtain ⟨⟨i, c⟩, hic, hsome⟩ := List.mem_filterMap.mp hw
      simp only [] at hsome
      split_ifs at hsome
      cases hsome
      have hc := mem_runeOffsets_char hic
      refine ⟨String.length_singleton _, ?_⟩
      intro hmem
      have : c = '\n' := by
        have hd : (String.singleton c).data = [c] := rfl
        rw [hd] at hmem
        exact (List.mem_singleton.mp hmem).symm
      exact hnl mon hmon (this ▸ hc)
    · cases hw

/-- No line of the box holds a newline when every cell is clean. -/
theorem boxLines_clean (grid : Grid) (gw : Int)
    (hu : ∀ row ∈ grid, ∀ c ∈ row, cleanCell c) :
    ∀ l ∈ boxLines grid gw, '\n' ∉ l.data := by
  have hbar : ∀ n : Int, '\n' ∉ (Repeat "─" n).data := by
    intro n hmem
    unfold Repeat at hmem
    rw [String.data_join, List.mem_flatten] at hmem
    obtain ⟨l, hl, hm⟩ := hmem
    obtain ⟨s, hs, rfl⟩ := List.mem_map.mp hl
    rw [List.eq_of_mem_replicate hs] at hm
    exact absurd hm (by decide)
  intro l hl
  simp only [boxLines, List.mem_append, List.mem_singleton, List.mem_map] at hl
  rcases hl with (rfl | ⟨row, hrow, rfl⟩) | rfl
  · simp only [String.data_append, List.mem_append, not_or]
    exact ⟨⟨by decide, hbar gw⟩, by decide⟩
  · simp only [String.data_append, List.mem_append, not_or]
    refine ⟨⟨by decide, ?_⟩, by decide⟩
    intro hmem
    rw [String.data_join, List.mem_flatten] at hmem
    obtain ⟨l, hl, hm⟩ := hmem
    obtain ⟨s, hs, rfl⟩ := List.mem_map.mp hl
    exact (hu row hrow s hs).2 hm
  · simp only [String.data_append, List.mem_append, not_or]
    exact ⟨⟨by decide, hbar gw⟩, by decide⟩

set_option maxRecDepth 1000000 in
/-- C20, as stated, fails: for one monitor of positive size named `A`,
newline, `B` and the scale 1, the grid is 20 by 10 and `renderMonitors`
returns a text with 13 lines between the header and the empty line before the
legend, not 12, of which two are 3 and 18 characters long, not 22: the name
loop stamps the newline into a cell. With monitors at `y = -1` and at
`y = 9223372036854775807` and the scale 0.1 no text is returned at all. -/
theorem box_newline_counterexample :
    (∀ mon ∈ [newlineMonitor], 0 < mon.Width ∧ 0 < mon.Height) ∧
    F64.finitePos F64.one = true ∧
    gridWidth F64.amd64 [newlineMonitor] F64.one = 20 ∧
    gridHeight F64.amd64 [newlineMonitor] F64.one = 10 ∧
    (renderMonitors F64.amd64 linuxAlloc [newlineMonitor] 0 F64.one).map
        (fun out => (splitLines out.data).map List.length) =
      some [15, 22, 22, 3, 18, 22, 22, 22, 22, 22, 22, 22, 22, 22, 0, 66, 0] ∧
    renderMonitors F64.amd64 linuxAlloc overflowLayoutY 0 F64.oneTenth = none := by
  decide

/-- C20, amended. For every layout in which no name holds a newline, the
text of every run of `renderMonitors` that completes, cut at its newlines, is
the header line, then exactly `gridHeight + 2` box lines (top border, one
line per grid row, bottom border), each exactly `gridWidth + 2` characters
long, every cell of the grid holding exactly one character, then an empty
line, the legend and the empty piece after the last newline; and
`renderMonitors` completes for every layout of monitors of positive size and
every finite scale greater than zero for which no operation of the rasterizer
leaves the range of `int` and the grid is one `make` allocates. -/
theorem box_is_rectangular (impl : F64 → Int) (alloc : Int → Int → Bool)
    (monitors : List Monitor) (activeIndex : Int) (scale : F64)
    (hnl : ∀ mon ∈ monitors, '\n' ∉ mon.Name.toList) :
    (∀ out, renderMonitors impl alloc monitors activeIndex scale = some out →
      ∃ grid, renderGrid impl alloc monitors activeIndex scale = some grid ∧
        unitCells grid ∧
        gridDims grid (gridWidth impl monitors scale) (gridHeight impl monitors scale) ∧
        splitLines out.data =
          (["Display Layout:"] ++ boxLines grid (gridWidth impl monitors scale) ++
            ["", legendLine]).map String.data ++ [[]] ∧
        ((boxLines grid (gridWidth impl monitors scale)).length : Int) =
          gridHeight impl monitors scale + 2 ∧
        ∀ l ∈ boxLines grid (gridWidth impl monitors scale),
          (l.length : Int) = gridWidth impl monitors scale + 2) ∧
    ((∀ mon ∈ monitors, 0 < mon.Width ∧ 0 < mon.Height) → F64.finitePos scale = true →
      (∀ mon ∈ monitors, rasterInRange (layoutBounds monitors) scale mon) →
      alloc (gridWidth impl monitors scale) (gridHeight impl monitors scale) = true →
      ∃ out, renderMonitors impl alloc monitors activeIndex scale = some out) := by
  obtain ⟨hgw, -⟩ := gridWidth_bounds impl monitors scale
  obtain ⟨hgh, -⟩ := gridHeight_bounds impl monitors scale
  constructor
  · intro out hout
    unfold renderMonitors at hout
    cases hg : renderGrid impl alloc monitors activeIndex scale with
    | none => rw [hg] at hout; cases hout
    | some grid =>
      rw [hg] at hout
      simp only [Option.some.injEq] at hout
      have hwrites := (renderGrid_eq_some.mp hg).2
      obtain ⟨hd, hu⟩ := @applyWrites_shape (gridWidth impl monitors scale)
        (gridHeight impl monitors scale) (allWrites impl monitors activeIndex scale) _ grid
        hwrites (blankGrid_dims _ _) (blankGrid_unitCells _ _)
        (allWrites_unit impl monitors activeIndex scale)
      have hclean := applyWrites_clean (allWrites impl monitors activeIndex scale) _ grid
        hwrites (blankGrid_clean _ _) (allWrites_clean impl monitors activeIndex scale hnl)
      have hbar : ("┌" : String).length = 1 ∧ ("┐" : String).length = 1 ∧
          ("└" : String).length = 1 ∧ ("┘" : String).length = 1 ∧
          ("│" : String).length = 1 := by decide
      refine ⟨grid, rfl, hu, hd, ?_, ?_, ?_⟩
      · rw [← hout, renderText_data]
        apply splitLines_lines
        intro l hl
        obtain ⟨s, hs, rfl⟩ := List.mem_map.mp hl
        simp only [List.mem_append, List.mem_singleton, List.mem_cons, List.mem_nil_iff,
          or_false] at hs
        rcases hs with (rfl | hs) | rfl | rfl
        · decide
        · exact boxLines_clean grid _ hclean s hs
        · decide
        · decide
      · simp only [boxLines, List.length_append, List.length_map, List.length_cons,
          List.length_nil, hd.1]
        push_cast
        omega
      · intro l hl
        simp only [boxLines, List.mem_append, List.mem_singleton, List.mem_map] at hl
        rcases hl with (rfl | ⟨row, hrow, rfl⟩) | rfl
        · rw [String.length_append, String.length_append, length_Repeat_bar, hbar.1, hbar.2.1]
          push_cast
          omega
        · rw [String.length_append, String.length_append, length_join_unit row (hu row hrow),
            hd.2 row hrow, hbar.2.2.2.2]
          push_cast
          omega
        · rw [String.length_append, String.length_append, length_Repeat_bar, hbar.2.2.1,
            hbar.2.2.2.1]
          push_cast
          omega
  · intro hsize hscale hrange halloc
    obtain ⟨grid, hg, -⟩ := renderGrid_of_inRange impl alloc monitors activeIndex scale hsize
      hscale hrange halloc
    exact ⟨renderText grid (gridWidth impl monitors scale), by unfold renderMonitors; rw [hg]⟩

set_option maxRecDepth 1000000 in
/-- Witness of C20: the default layout at the scale 0.1 (scenario A) has no
newline in a name; its text is the header, 12 box lines of 44 characters for
the 42 by 10 grid, an empty line and the legend. -/
theorem box_is_rectangular_witness :
    (∀ mon ∈ defaultMonitors, '\n' ∉ mon.Name.toList) ∧
    (renderMonitors F64.amd64 linuxAlloc defaultMonitors 0 F64.oneTenth).map
        (fun out => (splitLines out.data).map List.length) =
      some [15, 44, 44, 44, 44, 44, 44, 44, 44, 44, 44, 44, 44, 0, 66, 0] ∧
    ∃ out, renderMonitors F64.amd64 linuxAlloc defaultMonitors 0 F64.oneTenth = some out ∧
      ∃ grid, renderGrid F64.amd64 linuxAlloc defaultMonitors 0 F64.oneTenth = some grid ∧
        unitCells grid ∧
        gridDims grid (gridWidth F64.amd64 defaultMonitors F64.oneTenth)
          (gridHeight F64.amd64 defaultMonitors F64.oneTenth) ∧
        splitLines out.data =
          (["Display Layout:"] ++
            boxLines grid (gridWidth F64.amd64 defaultMonitors F64.oneTenth) ++
            ["", legendLine]).map String.data ++ [[]] ∧
        ((boxLines grid (gridWidth F64.amd64 defaultMonitors F64.oneTenth)).length : Int) =
          gridHeight F64.amd64 defaultMonitors F64.oneTenth + 2 ∧
        ∀ l ∈ boxLines grid (gridWidth F64.amd64 defaultMonitors F64.oneTenth),
          (l.length : Int) = gridWidth F64.amd64 defaultMonitors F64.oneTenth + 2 := by
  have hbox := box_is_rectangular F64.amd64 linuxAlloc defaultMonitors 0 F64.oneTenth
    (by decide)
  obtain ⟨out, hout⟩ := hbox.2 (by decide) (by decide) (by decide) (by decide)
  exact ⟨by decide, by decide, out, hout, hbox.1 out hout⟩

end HyprDisplay
